import Mathlib

/-!
# GoFlix composition root (`cmd/api/main.go`)

A shallow embedding of `main` and `openDB` together with the parts of the Go
standard library they call (`strings.Fields`, package `flag`, `strconv`,
`database/sql` pool limits, `expvar`, `os.Exit` and `defer`).

Go strings are modelled as lists of Unicode code points (`Str`), Go `int`,
`int64` and `time.Duration` as `Int`. A run of the process is a function of
what it receives from outside (`Sys`) and yields the sequence of calls it makes
(`Event`), its exit status and the variables it publishes (`Run`); `os.Exit`
ends a run without running deferred calls, a return from `main` runs them.
-/

deriving instance DecidableEq for Except

namespace GoFlix

/-- A Go string (valid UTF-8), as the sequence of runes a `range` loop over it
yields. -/
abbrev Str := List Char

/-- A Go `float64`, kept as its IEEE-754 bit pattern: `main` only stores and
forwards the rate-limiter value, it never computes with it. -/
abbrev float64 := Nat

/-! ## package unicode / strings -/

/-- `unicode.IsSpace`: the Latin-1 switch, then the `White_Space` range table. -/
def IsSpace (r : Char) : Bool :=
  let n := r.toNat
  if n ≤ 0xFF then
    n == 0x09 || n == 0x0A || n == 0x0B || n == 0x0C || n == 0x0D || n == 0x20
      || n == 0x85 || n == 0xA0
  else
    n == 0x1680 || (0x2000 ≤ n && n ≤ 0x200A) || n == 0x2028 || n == 0x2029
      || n == 0x202F || n == 0x205F || n == 0x3000

/-- The `asciiSpace` table of package strings. -/
def asciiSpace (r : Char) : Bool :=
  let n := r.toNat
  n == 0x09 || n == 0x0A || n == 0x0B || n == 0x0C || n == 0x0D || n == 0x20

/-- The scanning loop of `strings.FieldsFunc`: `start` is the field being read
(`none` for Go's `start < 0`); a separator closes the open field, any other
rune opens or extends one. -/
def fieldsLoop (f : Char → Bool) : Str → Option Str → List Str
  | [], none => []
  | [], some tok => [tok]
  | r :: rest, none =>
    if f r then fieldsLoop f rest none else fieldsLoop f rest (some [r])
  | r :: rest, some tok =>
    if f r then tok :: fieldsLoop f rest none else fieldsLoop f rest (some (tok ++ [r]))

/-- `strings.FieldsFunc(s, f)`. -/
def FieldsFunc (s : Str) (f : Char → Bool) : List Str :=
  fieldsLoop f s none

/-- `strings.Fields(s)`: the ASCII fast path splits on `asciiSpace`; a string
with a byte `>= utf8.RuneSelf` goes through `FieldsFunc(s, unicode.IsSpace)`. -/
def Fields (s : Str) : List Str :=
  if s.all (fun r => decide (r.toNat < 0x80)) then fieldsLoop asciiSpace s none
  else FieldsFunc s IsSpace

/-- `strings.Join(elems, " ")`. -/
def joinSpace : List Str → Str
  | [] => []
  | [a] => a
  | a :: b :: rest => a ++ ' ' :: joinSpace (b :: rest)

/-! ## package strconv -/

/-- The two `strconv.NumError` causes. -/
inductive NumError where
  | syntaxErr
  | rangeErr
  deriving DecidableEq, Repr

/-- `strconv.ParseBool`. -/
def ParseBool (str : Str) : Except NumError Bool :=
  if str = "1".toList ∨ str = "t".toList ∨ str = "T".toList ∨ str = "TRUE".toList
      ∨ str = "true".toList ∨ str = "True".toList then .ok true
  else if str = "0".toList ∨ str = "f".toList ∨ str = "F".toList ∨ str = "FALSE".toList
      ∨ str = "false".toList ∨ str = "False".toList then .ok false
  else .error .syntaxErr

/-- `lower(c)` of strconv: `c | ('x' - 'X')`. -/
def lower (c : Nat) : Nat := c ||| 0x20

/-- `strconv.underscoreOK`, after the optional sign and base prefix: `saw` is
`0` for a digit, `1` for an underscore, `2` for anything else, `3` at the
beginning of the number. -/
def underscoreLoop (hex : Bool) : Str → Nat → Bool
  | [], saw => saw != 1
  | c :: rest, saw =>
    let n := c.toNat
    if (0x30 ≤ n && n ≤ 0x39) || (hex && 0x61 ≤ lower n && lower n ≤ 0x66) then
      underscoreLoop hex rest 0
    else if n == 0x5F then
      if saw != 0 then false else underscoreLoop hex rest 1
    else if saw == 1 then false
    else underscoreLoop hex rest 2

/-- `strconv.underscoreOK(s)`. -/
def underscoreOK (s : Str) : Bool :=
  let s := match s with
    | c :: rest => if c = '-' ∨ c = '+' then rest else s
    | [] => s
  match s with
  | '0' :: p :: rest =>
    if lower p.toNat == 0x62 || lower p.toNat == 0x6F || lower p.toNat == 0x78 then
      underscoreLoop (lower p.toNat == 0x78) rest 0
    else underscoreLoop false s 3
  | _ => underscoreLoop false s 3

/-- The digit loop of `strconv.ParseUint` with `base0` set and `bitSize = 64`:
returns the value and whether an underscore was seen. -/
def parseUintLoop (base : Nat) : Str → Nat → Bool → Except NumError (Nat × Bool)
  | [], n, underscores => .ok (n, underscores)
  | c :: rest, n, underscores =>
    let b := c.toNat
    if b == 0x5F then parseUintLoop base rest n true
    else
      let d : Option Nat :=
        if 0x30 ≤ b && b ≤ 0x39 then some (b - 0x30)
        else if 0x61 ≤ lower b && lower b ≤ 0x7A then some (lower b - 0x61 + 10)
        else none
      match d with
      | none => .error .syntaxErr
      | some d =>
        if d ≥ base then .error .syntaxErr
        else if n ≥ (2 ^ 64 - 1) / base + 1 then .error .rangeErr
        else if n * base + d > 2 ^ 64 - 1 then .error .rangeErr
        else parseUintLoop base rest (n * base + d) underscores

/-- `strconv.ParseUint(s, 0, 64)`. -/
def ParseUint (s : Str) : Except NumError Nat :=
  match s with
  | [] => .error .syntaxErr
  | c :: rest =>
    let (base, digits) : Nat × Str :=
      if c = '0' then
        match rest with
        | p :: q :: more =>
          if lower p.toNat == 0x62 then (2, q :: more)
          else if lower p.toNat == 0x6F then (8, q :: more)
          else if lower p.toNat == 0x78 then (16, q :: more)
          else (8, rest)
        | _ => (8, rest)
      else (10, s)
    match parseUintLoop base digits 0 false with
    | .error e => .error e
    | .ok (n, underscores) =>
      if underscores && !underscoreOK s then .error .syntaxErr else .ok n

/-- `strconv.ParseInt(s, 0, 64)` (`strconv.IntSize` is 64). -/
def ParseInt (s : Str) : Except NumError Int :=
  match s with
  | [] => .error .syntaxErr
  | c :: rest =>
    let neg := c = '-'
    let body := if c = '+' ∨ c = '-' then rest else s
    match ParseUint body with
    | .error e => .error e
    | .ok un =>
      if !neg && un ≥ 2 ^ 63 then .error .rangeErr
      else if neg && un > 2 ^ 63 then .error .rangeErr
      else .ok (if neg then -(un : Int) else (un : Int))

/-! ## The configuration (`main.go`, lines 24-50) -/

/-- The constant `version`. -/
def version : Str := "1.0.0".toList

/-- The `db` group of `config`. -/
structure config_db where
  dsn : Str
  maxOpenConns : Int
  maxIdleConns : Int
  maxIdleTime : Int
  deriving DecidableEq, Repr

/-- The `limiter` group of `config`. -/
structure config_limiter where
  rps : float64
  burst : Int
  enabled : Bool
  deriving DecidableEq, Repr

/-- The `smtp` group of `config`. -/
structure config_smtp where
  host : Str
  port : Int
  username : Str
  password : Str
  sender : Str
  deriving DecidableEq, Repr

/-- The `cors` group of `config`. -/
structure config_cors where
  trustedOrigins : List Str
  deriving DecidableEq, Repr

/-- The struct `config`. -/
structure config where
  port : Int
  env : Str
  db : config_db
  limiter : config_limiter
  smtp : config_smtp
  cors : config_cors
  deriving DecidableEq, Repr

/-- The zero value of `config` (`var cfg config`). -/
def config.zero : config :=
  { port := 0, env := [],
    db := { dsn := [], maxOpenConns := 0, maxIdleConns := 0, maxIdleTime := 0 },
    limiter := { rps := 0, burst := 0, enabled := false },
    smtp := { host := [], port := 0, username := [], password := [], sender := [] },
    cors := { trustedOrigins := [] } }

/-! ## What the run receives from outside `main.go`

The helpers of `internal/env`, `godotenv`, the float and duration parsers, the
database driver and `app.serve` are not in this file; a run is parameterised
by what they return. -/

/-- The surroundings of one run of the process. -/
structure Sys where
  /-- The error of `godotenv.Load()`, `none` for `nil`. -/
  godotenvLoad : Option Str
  /-- Results of `env.GetInt(key)`. -/
  GetInt : Str → Int
  /-- Results of `env.GetString(key)`. -/
  GetString : Str → Str
  /-- Results of `env.GetDuration(key)`, in nanoseconds. -/
  GetDuration : Str → Int
  /-- Results of `env.GetFloat64(key)`. -/
  GetFloat64 : Str → float64
  /-- Results of `env.GetBool(key)`. -/
  GetBool : Str → Bool
  /-- The command line, `os.Args[1:]`. -/
  args : List Str
  /-- The function `strconv.ParseFloat(s, 64)`, `none` on error. -/
  ParseFloat : Str → Option float64
  /-- The function `time.ParseDuration(s)`, `none` on error. -/
  ParseDuration : Str → Option Int
  /-- The error of `sql.Open(driverName, dsn)`, `none` for `nil`. -/
  sqlOpen : Str → Str → Option Str
  /-- The error of `db.PingContext(ctx)` for the pool opened on a DSN under the
  context's deadline (a timeout is one of the errors), `none` for `nil`. -/
  ping : Str → Int → Option Str
  /-- The error returned by `app.serve()`, `none` for `nil`. -/
  serve : Option Str

/-! ## package flag -/

/-- The errors of `FlagSet.parseOne`. -/
inductive FlagError where
  /-- The error "bad flag syntax". -/
  | badFlag (s : Str)
  /-- The error "flag provided but not defined". -/
  | notDefined (name : Str)
  /-- The sentinel `flag.ErrHelp`. -/
  | ErrHelp
  /-- The error "flag needs an argument". -/
  | needsArgument (name : Str)
  /-- The error "invalid value ... for flag". -/
  | invalidValue (value name : Str)
  /-- The error "invalid boolean value ... for". -/
  | invalidBoolean (value name : Str)
  deriving DecidableEq, Repr

/-- The implementations of `flag.Value` used by `main`. Each holds a pointer
into `cfg`, modelled as the function that stores through it. -/
inductive FlagValue where
  | intValue (p : config → Int → config)
  | stringValue (p : config → Str → config)
  | durationValue (p : config → Int → config)
  | float64Value (p : config → float64 → config)
  | boolValue (p : config → Bool → config)
  | funcValue (fn : Str → config → Except Unit config)

/-- The method `IsBoolFlag`: only `boolValue` has it. -/
def FlagValue.IsBoolFlag : FlagValue → Bool
  | .boolValue _ => true
  | _ => false

/-- The method `Value.Set(s)`. A value that does not parse is an error; the
process exits on it, so the variable it leaves behind is never read. -/
def FlagValue.Set (sys : Sys) (v : FlagValue) (s : Str) (cfg : config) : Except Unit config :=
  match v with
  | .intValue p =>
    match ParseInt s with
    | .ok n => .ok (p cfg n)
    | .error _ => .error ()
  | .stringValue p => .ok (p cfg s)
  | .durationValue p =>
    match sys.ParseDuration s with
    | some d => .ok (p cfg d)
    | none => .error ()
  | .float64Value p =>
    match sys.ParseFloat s with
    | some x => .ok (p cfg x)
    | none => .error ()
  | .boolValue p =>
    match ParseBool s with
    | .ok b => .ok (p cfg b)
    | .error _ => .error ()
  | .funcValue fn => fn s cfg

/-- A `flag.Flag`: its name and its value. -/
structure Flag where
  Name : Str
  Value : FlagValue

/-- A `flag.FlagSet`: the defined flags, the names of the flags that were set,
and the arguments still to read. -/
structure FlagSet where
  formal : List Flag
  actual : List Str
  args : List Str

/-- The lookup `f.formal[name]`. -/
def FlagSet.lookup (f : FlagSet) (name : Str) : Option Flag :=
  f.formal.find? (fun fl => decide (fl.Name = name))

/-- The search of `parseOne` for the first `=` of a flag token: the text
before it and the text after it. -/
def findEq : Str → Option (Str × Str)
  | [] => none
  | c :: cs =>
    if c = '=' then some ([], cs)
    else match findEq cs with
      | some (a, b) => some (c :: a, b)
      | none => none

/-- The split of a flag token at its first `=` ("equals cannot be first"):
name, and value if there is one. -/
def splitNameValue (name : Str) : Str × Option Str :=
  match name with
  | [] => ([], none)
  | c :: cs =>
    match findEq cs with
    | some (a, b) => (c :: a, some b)
    | none => (name, none)

/-- What `parseOne` returns, `(bool, error)`, with the flag set and the
variables as it leaves them. -/
structure ParseStep where
  seen : Bool
  err : Option FlagError
  f : FlagSet
  cfg : config

/-- The second half of `FlagSet.parseOne` ("it's a flag. does it have an
argument?"): look the name up, find the value, set the flag. -/
def FlagSet.setOne (sys : Sys) (f : FlagSet) (cfg : config) (name : Str) (value : Option Str) :
    ParseStep :=
  match f.lookup name with
  | none =>
    if name = "help".toList ∨ name = "h".toList then ⟨false, some .ErrHelp, f, cfg⟩
    else ⟨false, some (.notDefined name), f, cfg⟩
  | some flag =>
    if flag.Value.IsBoolFlag then
      match value with
      | some value =>
        match flag.Value.Set sys value cfg with
        | .ok cfg => ⟨true, none, { f with actual := name :: f.actual }, cfg⟩
        | .error _ => ⟨false, some (.invalidBoolean value name), f, cfg⟩
      | none =>
        match flag.Value.Set sys "true".toList cfg with
        | .ok cfg => ⟨true, none, { f with actual := name :: f.actual }, cfg⟩
        | .error _ => ⟨false, some (.invalidBoolean "true".toList name), f, cfg⟩
    else
      match value, f.args with
      | some value, _ =>
        match flag.Value.Set sys value cfg with
        | .ok cfg => ⟨true, none, { f with actual := name :: f.actual }, cfg⟩
        | .error _ => ⟨false, some (.invalidValue value name), f, cfg⟩
      | none, value :: rest =>
        let f := { f with args := rest }
        match flag.Value.Set sys value cfg with
        | .ok cfg => ⟨true, none, { f with actual := name :: f.actual }, cfg⟩
        | .error _ => ⟨false, some (.invalidValue value name), f, cfg⟩
      | none, [] => ⟨false, some (.needsArgument name), f, cfg⟩

/-- The method `FlagSet.parseOne`: the first half reads the dashes of the
next argument, `setOne` does the rest. -/
def FlagSet.parseOne (sys : Sys) (f : FlagSet) (cfg : config) : ParseStep :=
  match f.args with
  | [] => ⟨false, none, f, cfg⟩
  | s :: rest =>
    match s with
    | '-' :: c :: t =>
      if c = '-' ∧ t = [] then ⟨false, none, { f with args := rest }, cfg⟩
      else
        let name := if c = '-' then t else c :: t
        if name.head? = none ∨ name.head? = some '-' ∨ name.head? = some '=' then
          ⟨false, some (.badFlag s), f, cfg⟩
        else
          FlagSet.setOne sys { f with args := rest } cfg (splitNameValue name).1
            (splitNameValue name).2
    | _ => ⟨false, none, f, cfg⟩

/-- The loop of `FlagSet.Parse`: `parseOne` until it reports no flag; each
round with a flag consumes an argument, so `fuel` above the number of
arguments is never used up. -/
def FlagSet.parseLoop (sys : Sys) : Nat → FlagSet → config → Except FlagError (FlagSet × config)
  | 0, f, cfg => .ok (f, cfg)
  | fuel + 1, f, cfg =>
    let r := f.parseOne sys cfg
    if r.seen then FlagSet.parseLoop sys fuel r.f r.cfg
    else match r.err with
      | none => .ok (r.f, r.cfg)
      | some e => .error e

/-- The method `FlagSet.Parse(arguments)`, up to the error handling. -/
def FlagSet.Parse (sys : Sys) (f : FlagSet) (arguments : List Str) (cfg : config) :
    Except FlagError (FlagSet × config) :=
  FlagSet.parseLoop sys (arguments.length + 1) { f with args := arguments } cfg

/-- The call `flag.IntVar(p, name, value, usage)`: store the default through
the pointer and define the flag. -/
def IntVar (st : FlagSet × config) (p : config → Int → config) (name : Str) (value : Int) :
    FlagSet × config :=
  ({ st.1 with formal := st.1.formal ++ [⟨name, .intValue p⟩] }, p st.2 value)

/-- The call `flag.StringVar(p, name, value, usage)`. -/
def StringVar (st : FlagSet × config) (p : config → Str → config) (name : Str) (value : Str) :
    FlagSet × config :=
  ({ st.1 with formal := st.1.formal ++ [⟨name, .stringValue p⟩] }, p st.2 value)

/-- The call `flag.DurationVar(p, name, value, usage)`. -/
def DurationVar (st : FlagSet × config) (p : config → Int → config) (name : Str) (value : Int) :
    FlagSet × config :=
  ({ st.1 with formal := st.1.formal ++ [⟨name, .durationValue p⟩] }, p st.2 value)

/-- The call `flag.Float64Var(p, name, value, usage)`. -/
def Float64Var (st : FlagSet × config) (p : config → float64 → config) (name : Str)
    (value : float64) : FlagSet × config :=
  ({ st.1 with formal := st.1.formal ++ [⟨name, .float64Value p⟩] }, p st.2 value)

/-- The call `flag.BoolVar(p, name, value, usage)`. -/
def BoolVar (st : FlagSet × config) (p : config → Bool → config) (name : Str) (value : Bool) :
    FlagSet × config :=
  ({ st.1 with formal := st.1.formal ++ [⟨name, .boolValue p⟩] }, p st.2 value)

/-- The call `flag.Func(name, usage, fn)`: define the flag, store nothing. -/
def Func (st : FlagSet × config) (name : Str) (fn : Str → config → Except Unit config) :
    FlagSet × config :=
  ({ st.1 with formal := st.1.formal ++ [⟨name, .funcValue fn⟩] }, st.2)

/-- The function literal given to `flag.Func` (lines 87-90): it stores
`strings.Fields(val)` in `cfg.cors.trustedOrigins` and returns `nil`. -/
def corsFunc (val : Str) (cfg : config) : Except Unit config :=
  .ok { cfg with cors := { cfg.cors with trustedOrigins := Fields val } }

/-- Lines 66-90 of `main`: `var cfg config` and the fifteen flag definitions on
the empty command-line flag set. -/
def defineFlags (sys : Sys) : FlagSet × config :=
  let st : FlagSet × config := (⟨[], [], []⟩, config.zero)
  let st := IntVar st (fun c v => { c with port := v }) "port".toList (sys.GetInt "PORT".toList)
  let st := StringVar st (fun c v => { c with env := v }) "env".toList (sys.GetString "ENV".toList)
  let st := StringVar st (fun c v => { c with db := { c.db with dsn := v } }) "db-dsn".toList
    (sys.GetString "GOFLIX_DB_DSN".toList)
  let st := IntVar st (fun c v => { c with db := { c.db with maxOpenConns := v } })
    "db-max-open-conns".toList (sys.GetInt "DB_MAX_OPEN_CONNS".toList)
  let st := IntVar st (fun c v => { c with db := { c.db with maxIdleConns := v } })
    "db-max-idle-conns".toList (sys.GetInt "DB_MAX_IDLE_CONNS".toList)
  let st := DurationVar st (fun c v => { c with db := { c.db with maxIdleTime := v } })
    "db-max-idle-time".toList (sys.GetDuration "DB_MAX_IDLE_TIME".toList)
  let st := Float64Var st (fun c v => { c with limiter := { c.limiter with rps := v } })
    "limiter-rps".toList (sys.GetFloat64 "LIMITER_RPS".toList)
  let st := IntVar st (fun c v => { c with limiter := { c.limiter with burst := v } })
    "limiter-burst".toList (sys.GetInt "LIMITER_BURST".toList)
  let st := BoolVar st (fun c v => { c with limiter := { c.limiter with enabled := v } })
    "limiter-enabled".toList (sys.GetBool "LIMITER_ENABLED".toList)
  let st := StringVar st (fun c v => { c with smtp := { c.smtp with host := v } })
    "smtp-host".toList (sys.GetString "SMTP_HOST".toList)
  let st := IntVar st (fun c v => { c with smtp := { c.smtp with port := v } })
    "smtp-port".toList (sys.GetInt "SMTP_PORT".toList)
  let st := StringVar st (fun c v => { c with smtp := { c.smtp with username := v } })
    "smtp-username".toList (sys.GetString "SMTP_USERNAME".toList)
  let st := StringVar st (fun c v => { c with smtp := { c.smtp with password := v } })
    "smtp-password".toList (sys.GetString "SMTP_PASSWORD".toList)
  let st := StringVar st (fun c v => { c with smtp := { c.smtp with sender := v } })
    "smtp-sender".toList "GoFlix <no-reply@goflix.bhavya.net>".toList
  let st := Func st "cors-trusted-origins".toList corsFunc
  st

/-- Lines 66-92 of `main`: the flag definitions and `flag.Parse()`, up to the
exit of the process on an error. -/
def parseFlags (sys : Sys) : Except FlagError config :=
  match FlagSet.Parse sys (defineFlags sys).1 sys.args (defineFlags sys).2 with
  | .ok (_, cfg) => .ok cfg
  | .error e => .error e

/-! ## package database/sql -/

/-- The fields of `sql.DB` behind the pool limits and `Stats`. -/
structure DB where
  /-- The data source the connector was built from. -/
  dsn : Str
  /-- Zero means `defaultMaxIdleConns`; negative means 0. -/
  maxIdleCount : Int
  /-- Zero or less means unlimited. -/
  maxOpen : Int
  maxIdleTime : Int
  numOpen : Int
  /-- The length of `freeConn`. -/
  freeConn : Int
  waitCount : Int
  waitDuration : Int
  maxIdleClosed : Int
  maxIdleTimeClosed : Int
  maxLifetimeClosed : Int
  deriving DecidableEq, Repr

/-- The pool `sql.Open` returns: nothing configured, no connection made. -/
def DB.fresh (dsn : Str) : DB :=
  { dsn := dsn, maxIdleCount := 0, maxOpen := 0, maxIdleTime := 0, numOpen := 0, freeConn := 0,
    waitCount := 0, waitDuration := 0, maxIdleClosed := 0, maxIdleTimeClosed := 0,
    maxLifetimeClosed := 0 }

/-- The constant `defaultMaxIdleConns`. -/
def defaultMaxIdleConns : Int := 2

/-- The method `maxIdleConnsLocked`. -/
def DB.maxIdleConnsLocked (db : DB) : Int :=
  if db.maxIdleCount = 0 then defaultMaxIdleConns
  else if db.maxIdleCount < 0 then 0
  else db.maxIdleCount

/-- The method `SetMaxIdleConns(n)`. -/
def DB.SetMaxIdleConns (db : DB) (n : Int) : DB :=
  let db := if n > 0 then { db with maxIdleCount := n } else { db with maxIdleCount := -1 }
  if db.maxOpen > 0 ∧ db.maxIdleConnsLocked > db.maxOpen then
    { db with maxIdleCount := db.maxOpen }
  else db

/-- The method `SetMaxOpenConns(n)`. -/
def DB.SetMaxOpenConns (db : DB) (n : Int) : DB :=
  let db := { db with maxOpen := n }
  let db := if n < 0 then { db with maxOpen := 0 } else db
  if db.maxOpen > 0 ∧ db.maxIdleConnsLocked > db.maxOpen then db.SetMaxIdleConns n else db

/-- The method `SetConnMaxIdleTime(d)`. -/
def DB.SetConnMaxIdleTime (db : DB) (d : Int) : DB :=
  let d := if d < 0 then 0 else d
  { db with maxIdleTime := d }

/-- The struct `sql.DBStats`. -/
structure DBStats where
  MaxOpenConnections : Int
  OpenConnections : Int
  InUse : Int
  Idle : Int
  WaitCount : Int
  WaitDuration : Int
  MaxIdleClosed : Int
  MaxIdleTimeClosed : Int
  MaxLifetimeClosed : Int
  deriving DecidableEq, Repr

/-- The method `Stats`. -/
def DB.Stats (db : DB) : DBStats :=
  { MaxOpenConnections := db.maxOpen, OpenConnections := db.numOpen,
    InUse := db.numOpen - db.freeConn, Idle := db.freeConn, WaitCount := db.waitCount,
    WaitDuration := db.waitDuration, MaxIdleClosed := db.maxIdleClosed,
    MaxIdleTimeClosed := db.maxIdleTimeClosed, MaxLifetimeClosed := db.maxLifetimeClosed }

/-! ## The process: what it does, in order -/

/-- What a run does that can be observed from outside, one constructor per
call site of `main.go`. -/
inductive Event where
  /-- The call `log.Fatal(msg)` writes the message on the standard logger. -/
  | logFatal (msg : Str)
  /-- Package flag writes an error message on standard error. -/
  | flagMessage (e : FlagError)
  /-- Package flag writes the usage text on standard error. -/
  | flagUsage
  /-- The call `flag.Parse()` has returned. -/
  | flagParsed
  /-- The call `openDB(cfg)` is entered. -/
  | openDBCall
  /-- The call `sql.Open(driverName, dsn)`, and whether it gave a pool. -/
  | sqlOpen (driverName dsn : Str) (ok : Bool)
  | SetMaxOpenConns (n : Int)
  | SetMaxIdleConns (n : Int)
  | SetConnMaxIdleTime (d : Int)
  /-- The call `context.WithTimeout(context.Background(), d)`. -/
  | WithTimeout (d : Int)
  | PingContext
  /-- The deferred `cancel()`. -/
  | cancel
  /-- The call `openDB(cfg)` returns, with a nil error or not. -/
  | openDBReturn (ok : Bool)
  /-- The call `logger.Error(msg)`. -/
  | loggerError (msg : Str)
  /-- The call `logger.Info(msg)`. -/
  | loggerInfo (msg : Str)
  /-- The calls `expvar.NewString(name)` and `expvar.Publish(name, v)`. -/
  | expvarPublish (name : Str)
  /-- The call `data.NewModels(db)`. -/
  | NewModels
  /-- The call `mailer.New(host, port, username, password, sender)`. -/
  | mailerNew (host : Str) (port : Int) (username password sender : Str)
  /-- The `application` struct is built. -/
  | application
  /-- The call `app.serve()`. -/
  | serve
  /-- The call `db.Close()`. -/
  | dbClose
  deriving DecidableEq, Repr

/-- The constant `time.Second`, in nanoseconds. -/
def Second : Int := 1000000000

/-- What `openDB` returns, `(*sql.DB, error)`, and what it did. -/
structure OpenDBResult where
  db : Option DB
  err : Option Str
  events : List Event

/-- The function `openDB` (lines 133-152). The deferred `cancel()` runs on
every return after line 144. -/
def openDB (sys : Sys) (cfg : config) : OpenDBResult :=
  match sys.sqlOpen "postgres".toList cfg.db.dsn with
  | some err => ⟨none, some err, [.sqlOpen "postgres".toList cfg.db.dsn false]⟩
  | none =>
    let db := DB.fresh cfg.db.dsn
    let db := db.SetMaxOpenConns cfg.db.maxOpenConns
    let db := db.SetMaxIdleConns cfg.db.maxIdleConns
    let db := db.SetConnMaxIdleTime cfg.db.maxIdleTime
    let events := [.sqlOpen "postgres".toList cfg.db.dsn true,
      .SetMaxOpenConns cfg.db.maxOpenConns, .SetMaxIdleConns cfg.db.maxIdleConns,
      .SetConnMaxIdleTime cfg.db.maxIdleTime, .WithTimeout (5 * Second), .PingContext]
    let deferred := [Event.cancel]
    match sys.ping cfg.db.dsn (5 * Second) with
    | some err => ⟨none, some err, events ++ deferred⟩
    | none => ⟨some db, none, events ++ deferred⟩

/-! ## package expvar -/

/-- The state of the process at the moment an exported variable is read. -/
structure Runtime where
  /-- The value of `runtime.NumGoroutine()`. -/
  NumGoroutine : Int
  /-- The pool `db` points to, as it is at that moment. -/
  db : DB
  /-- The value of `time.Now().Unix()`. -/
  now : Int

/-- A value read from an exported variable. -/
inductive Val where
  | str (s : Str)
  | int (n : Int)
  | stats (s : DBStats)
  deriving DecidableEq, Repr

/-- An `expvar.Var`: a `*expvar.String` holding a string, or an `expvar.Func`
wrapping a function that is called on every read. -/
inductive Var where
  | String (s : Str)
  | Func (f : Runtime → Val)

/-- Reading a variable (`Var.String()` / `Func.Value()`). -/
def Var.Value : Var → Runtime → Val
  | .String s, _ => .str s
  | .Func f, rt => f rt

/-! ## `main` -/

/-- The process while `main` runs: what it has done, the calls `main` has
deferred (last deferred first), and the variables it has published. -/
structure Proc where
  trace : List Event
  deferred : List Event
  vars : List (Str × Var)

/-- A finished run: what the process did, its exit status, and the variables
`main` published. -/
structure Run where
  trace : List Event
  exit : Nat
  vars : List (Str × Var)

/-- The process performs the events. -/
def Proc.emit (p : Proc) (events : List Event) : Proc :=
  { p with trace := p.trace ++ events }

/-- A `defer` statement in `main`. -/
def Proc.defer (p : Proc) (call : Event) : Proc :=
  { p with deferred := call :: p.deferred }

/-- The calls `expvar.Publish(name, v)` and `expvar.NewString(name)`. -/
def Proc.Publish (p : Proc) (name : Str) (v : Var) : Proc :=
  { p with trace := p.trace ++ [.expvarPublish name], vars := p.vars ++ [(name, v)] }

/-- The call `os.Exit(code)`: the process ends at once, deferred calls are
not run. -/
def osExit (p : Proc) (code : Nat) : Run :=
  ⟨p.trace, code, p.vars⟩

/-- The function `main` returns: its deferred calls run, last deferred first,
and the process ends with status 0. -/
def returnFromMain (p : Proc) : Run :=
  ⟨p.trace ++ p.deferred, 0, p.vars⟩

/-- The function `main` (lines 60-131). -/
def main (sys : Sys) : Run :=
  let p : Proc := ⟨[], [], []⟩
  match sys.godotenvLoad with
  | some _ => osExit (p.emit [.logFatal "Error loading .env file".toList]) 1
  | none =>
    match parseFlags sys with
    | .error e =>
      if e = .ErrHelp then osExit (p.emit [.flagUsage]) 0
      else osExit (p.emit [.flagMessage e, .flagUsage]) 2
    | .ok cfg =>
      let p := p.emit [.flagParsed]
      let r := openDB sys cfg
      let p := p.emit ([.openDBCall] ++ r.events ++ [.openDBReturn r.err.isNone])
      match r.err with
      | some err => osExit (p.emit [.loggerError err]) 1
      | none =>
        let p := p.defer .dbClose
        let p := p.emit [.loggerInfo "database connection pool established".toList]
        let p := p.Publish "version".toList (.String version)
        let p := p.Publish "goroutines".toList (.Func (fun rt => .int rt.NumGoroutine))
        let p := p.Publish "database".toList (.Func (fun rt => .stats rt.db.Stats))
        let p := p.Publish "timestamp".toList (.Func (fun rt => .int rt.now))
        let p := p.emit [.NewModels,
          .mailerNew cfg.smtp.host cfg.smtp.port cfg.smtp.username cfg.smtp.password
            cfg.smtp.sender,
          .application]
        let p := p.emit [.serve]
        match sys.serve with
        | some err => osExit (p.emit [.loggerError err]) 1
        | none => returnFromMain p

/-! ## Reading a run -/

/-- The events that log an error: `log.Fatal` and `logger.Error`. -/
def Event.isErrorLog : Event → Bool
  | .logFatal _ => true
  | .loggerError _ => true
  | _ => false

/-- How many errors a run logged. -/
def errorsLogged (t : List Event) : Nat :=
  (t.filter Event.isErrorLog).length

/-- How many times the pool was closed. -/
def closes (t : List Event) : Nat :=
  t.count .dbClose

/-- The event is a successful `sql.Open`. -/
def Event.isOpen : Event → Bool
  | .sqlOpen _ _ ok => ok
  | _ => false

/-- The pools opened and not closed in a sequence of events. -/
def poolsLeftOpen (t : List Event) : Int :=
  ((t.filter Event.isOpen).length : Int) - (closes t : Int)

/-- Every event of `t` satisfying `q` comes after some event satisfying `p`. -/
def onlyAfter (p q : Event → Bool) : List Event → Bool
  | [] => true
  | e :: t => if p e then true else if q e then false else onlyAfter p q t

/-- An event of the steps that follow a successful `openDB`: the data-access
models, the mailer, the application struct, the call to `serve`. -/
def Event.isLaterStep : Event → Bool
  | .NewModels => true
  | .mailerNew _ _ _ _ _ => true
  | .application => true
  | .serve => true
  | _ => false

/-- An event of `openDB`. -/
def Event.isOpenDB : Event → Bool
  | .openDBCall => true
  | .sqlOpen _ _ _ => true
  | .PingContext => true
  | _ => false

/-- A run-time system in which nothing was read from the environment, no
argument was given, and the database and the server work. -/
def Sys.quiet : Sys :=
  { godotenvLoad := none, GetInt := fun _ => 0, GetString := fun _ => [],
    GetDuration := fun _ => 0, GetFloat64 := fun _ => 0, GetBool := fun _ => false,
    args := [], ParseFloat := fun _ => none, ParseDuration := fun _ => none,
    sqlOpen := fun _ _ => none, ping := fun _ _ => none, serve := none }

/-! ## The command line, as the specification speaks of it -/

/-- The fifteen flags of `main`. -/
inductive FlagId where
  | port | env | dbDsn | dbMaxOpenConns | dbMaxIdleConns | dbMaxIdleTime
  | limiterRps | limiterBurst | limiterEnabled
  | smtpHost | smtpPort | smtpUsername | smtpPassword | smtpSender
  | corsTrustedOrigins
  deriving DecidableEq, Repr

/-- The name of a flag on the command line. -/
def FlagId.Name : FlagId → Str
  | .port => "port".toList
  | .env => "env".toList
  | .dbDsn => "db-dsn".toList
  | .dbMaxOpenConns => "db-max-open-conns".toList
  | .dbMaxIdleConns => "db-max-idle-conns".toList
  | .dbMaxIdleTime => "db-max-idle-time".toList
  | .limiterRps => "limiter-rps".toList
  | .limiterBurst => "limiter-burst".toList
  | .limiterEnabled => "limiter-enabled".toList
  | .smtpHost => "smtp-host".toList
  | .smtpPort => "smtp-port".toList
  | .smtpUsername => "smtp-username".toList
  | .smtpPassword => "smtp-password".toList
  | .smtpSender => "smtp-sender".toList
  | .corsTrustedOrigins => "cors-trusted-origins".toList

/-- The one boolean flag, which may stand without a value. -/
def FlagId.isBool : FlagId → Bool
  | .limiterEnabled => true
  | _ => false

/-- One flag given explicitly on the command line, in one of the forms
package flag documents: `-name=value`, `-name value` (not for a boolean
flag), `-name` (a boolean flag only); each with one dash or two. -/
inductive Given where
  | assign (twoDashes : Bool) (id : FlagId) (value : Str)
  | next (twoDashes : Bool) (id : FlagId) (value : Str)
  | bare (twoDashes : Bool) (id : FlagId)
  deriving DecidableEq, Repr

/-- The flag that is given. -/
def Given.id : Given → FlagId
  | .assign _ id _ => id
  | .next _ id _ => id
  | .bare _ id => id

/-- The text of the value that is given; a bare boolean flag stands for `true`. -/
def Given.text : Given → Str
  | .assign _ _ value => value
  | .next _ _ value => value
  | .bare _ _ => "true".toList

/-- One dash or two. -/
def dashes (twoDashes : Bool) : Str :=
  if twoDashes then ['-', '-'] else ['-']

/-- The arguments that spell a given flag. -/
def Given.tokens : Given → List Str
  | .assign d id value => [dashes d ++ id.Name ++ '=' :: value]
  | .next d id value => [dashes d ++ id.Name, value]
  | .bare d id => [dashes d ++ id.Name]

/-- The command line that gives the flags, in order. -/
def commandLine : List Given → List Str
  | [] => []
  | g :: gs => g.tokens ++ commandLine gs

/-- What may follow the flags on a command line: nothing, or the arguments
after the terminator `--`, or arguments of which the first is not written as
a flag (it is shorter than two characters or does not start with a dash). -/
def positional (tail : List Str) : Bool :=
  match tail with
  | [] => true
  | s :: _ =>
    match s with
    | '-' :: c :: t => decide (c = '-' ∧ t = [])
    | _ => true

/-- The text is a well-formed value for the flag's type. -/
def accepts (sys : Sys) (id : FlagId) (text : Str) : Bool :=
  match id with
  | .port | .dbMaxOpenConns | .dbMaxIdleConns | .limiterBurst | .smtpPort =>
    (ParseInt text).toOption.isSome
  | .dbMaxIdleTime => (sys.ParseDuration text).isSome
  | .limiterRps => (sys.ParseFloat text).isSome
  | .limiterEnabled => (ParseBool text).toOption.isSome
  | _ => true

/-- A given flag is well formed: its value is well formed for its type, and
its form fits the flag (`-name value` for a flag that takes a value, a bare
`-name` for the boolean flag). -/
def Given.wellFormed (sys : Sys) (g : Given) : Bool :=
  accepts sys g.id g.text &&
    match g with
    | .assign _ _ _ => true
    | .next _ id _ => !id.isBool
    | .bare _ id => id.isBool

/-- The value text a flag was last given on the command line, if it was
given at all. -/
def lastGiven (id : FlagId) : List Given → Option Str
  | [] => none
  | g :: gs =>
    match lastGiven id gs with
    | some v => some v
    | none => if g.id = id then some g.text else none

/-- The resolution rule in the specification's words: the value of the flag
if the flag was explicitly given, else the fallback (the value read from the
environment, or the documented default). -/
def resolve {α : Type} (parse : Str → Option α) (given : Option Str) (fallback : α) : Option α :=
  match given with
  | some v => parse v
  | none => some fallback

/-- A value of any of the configuration's field types. -/
inductive TypedVal where
  | int (n : Int)
  | str (s : Str)
  | float (x : float64)
  | bool (b : Bool)
  | strs (l : List Str)
  deriving DecidableEq, Repr

/-- The field of the configuration a flag stores into. -/
def config.get (cfg : config) : FlagId → TypedVal
  | .port => .int cfg.port
  | .env => .str cfg.env
  | .dbDsn => .str cfg.db.dsn
  | .dbMaxOpenConns => .int cfg.db.maxOpenConns
  | .dbMaxIdleConns => .int cfg.db.maxIdleConns
  | .dbMaxIdleTime => .int cfg.db.maxIdleTime
  | .limiterRps => .float cfg.limiter.rps
  | .limiterBurst => .int cfg.limiter.burst
  | .limiterEnabled => .bool cfg.limiter.enabled
  | .smtpHost => .str cfg.smtp.host
  | .smtpPort => .int cfg.smtp.port
  | .smtpUsername => .str cfg.smtp.username
  | .smtpPassword => .str cfg.smtp.password
  | .smtpSender => .str cfg.smtp.sender
  | .corsTrustedOrigins => .strs cfg.cors.trustedOrigins

/-- The value a text stands for, by the type of the flag. -/
def parseT (sys : Sys) (id : FlagId) (text : Str) : Option TypedVal :=
  match id with
  | .port | .dbMaxOpenConns | .dbMaxIdleConns | .limiterBurst | .smtpPort =>
    (ParseInt text).toOption.map .int
  | .dbMaxIdleTime => (sys.ParseDuration text).map .int
  | .limiterRps => (sys.ParseFloat text).map .float
  | .limiterEnabled => (ParseBool text).toOption.map .bool
  | .corsTrustedOrigins => some (.strs (Fields text))
  | _ => some (.str text)

/-- The fallback of a flag: what `main` passes as its default. -/
def defaultT (sys : Sys) : FlagId → TypedVal
  | .port => .int (sys.GetInt "PORT".toList)
  | .env => .str (sys.GetString "ENV".toList)
  | .dbDsn => .str (sys.GetString "GOFLIX_DB_DSN".toList)
  | .dbMaxOpenConns => .int (sys.GetInt "DB_MAX_OPEN_CONNS".toList)
  | .dbMaxIdleConns => .int (sys.GetInt "DB_MAX_IDLE_CONNS".toList)
  | .dbMaxIdleTime => .int (sys.GetDuration "DB_MAX_IDLE_TIME".toList)
  | .limiterRps => .float (sys.GetFloat64 "LIMITER_RPS".toList)
  | .limiterBurst => .int (sys.GetInt "LIMITER_BURST".toList)
  | .limiterEnabled => .bool (sys.GetBool "LIMITER_ENABLED".toList)
  | .smtpHost => .str (sys.GetString "SMTP_HOST".toList)
  | .smtpPort => .int (sys.GetInt "SMTP_PORT".toList)
  | .smtpUsername => .str (sys.GetString "SMTP_USERNAME".toList)
  | .smtpPassword => .str (sys.GetString "SMTP_PASSWORD".toList)
  | .smtpSender => .str "GoFlix <no-reply@goflix.bhavya.net>".toList
  | .corsTrustedOrigins => .strs []

/-- The call `expvar.Get(name)` followed by a read of the variable, in the
state `rt` of the process. -/
def expvarRead (vars : List (Str × Var)) (name : Str) (rt : Runtime) : Option Val :=
  match vars.find? (fun v => decide (v.1 = name)) with
  | some v => some (v.2.Value rt)
  | none => none

/-! ## Sample runs -/

/-- A run given `-port=abc` on the command line. -/
def Sys.badPort : Sys :=
  { Sys.quiet with args := ["-port=abc".toList] }

/-- A run in which `app.serve()` returns an error. -/
def Sys.serveFails : Sys :=
  { Sys.quiet with serve := some "listen tcp :4000: bind: address already in use".toList }

/-- A run in which the pool opens and the health check fails. -/
def Sys.pingFails : Sys :=
  { Sys.quiet with ping := fun _ _ => some "context deadline exceeded".toList }

/-- A run in which `sql.Open` fails. -/
def Sys.openFails : Sys :=
  { Sys.quiet with sqlOpen := fun _ _ => some "sql: unknown driver".toList }

/-- A run in which the `.env` file is missing. -/
def Sys.noDotenv : Sys :=
  { Sys.quiet with godotenvLoad := some "open .env: no such file or directory".toList }

/-- The process with one connection open and idle. -/
def Runtime.idle : Runtime :=
  { NumGoroutine := 4, db := { DB.fresh [] with numOpen := 1, freeConn := 1 }, now := 1700000000 }

/-- The process with one connection open and in use. -/
def Runtime.busy : Runtime :=
  { NumGoroutine := 5, db := { DB.fresh [] with numOpen := 1, freeConn := 0 }, now := 1700000001 }

/-- A configuration asking for more idle than open connections. -/
def config.idleAboveOpen : config :=
  { config.zero with
    db := { dsn := "postgres://goflix".toList, maxOpenConns := 5, maxIdleConns := 10,
            maxIdleTime := 15 * 60 * Second } }

/-- A configuration with negative pool limits. -/
def config.negativeLimits : config :=
  { config.zero with
    db := { dsn := "postgres://goflix".toList, maxOpenConns := -1, maxIdleConns := -1,
            maxIdleTime := -1 } }

/-- A configuration with the customary pool limits. -/
def config.usual : config :=
  { config.zero with
    db := { dsn := "postgres://goflix".toList, maxOpenConns := 25, maxIdleConns := 25,
            maxIdleTime := 15 * 60 * Second } }

/-- Flags given on a sample command line: the port twice, the limiter switch
bare, two origins. -/
def Given.sample : List Given :=
  [.assign false .port "4000".toList, .bare true .limiterEnabled,
   .next false .corsTrustedOrigins "http://a.com http://b.com".toList,
   .assign true .port "5000".toList]

/-- A run with the sample command line, followed by two arguments that are not
flags. -/
def Sys.sample : Sys :=
  { Sys.quiet with args := commandLine Given.sample ++ ["serve".toList, "-port=1".toList] }

/-! ## `strings.Fields` -/

theorem asciiSpace_eq_IsSpace (c : Char) (h : c.toNat < 0x80) : asciiSpace c = IsSpace c := by
  unfold asciiSpace IsSpace
  have h1 : c.toNat ≤ 0xFF := by omega
  have h2 : (c.toNat == 0x85) = false := by
    rw [beq_eq_false_iff_ne]; omega
  have h3 : (c.toNat == 0xA0) = false := by
    rw [beq_eq_false_iff_ne]; omega
  simp only [h1, if_true, h2, h3, Bool.or_false]

theorem fieldsLoop_congr (f g : Char → Bool) (s : Str) (start : Option Str)
    (h : ∀ c ∈ s, f c = g c) : fieldsLoop f s start = fieldsLoop g s start := by
  induction s generalizing start with
  | nil => cases start <;> rfl
  | cons r rest ih =>
    have hr : f r = g r := h r (List.mem_cons_self _ _)
    have ih2 := fun st => ih st (fun c hc => h c (List.mem_cons_of_mem _ hc))
    cases start with
    | none => simp only [fieldsLoop, hr, ih2]
    | some tok => simp only [fieldsLoop, hr, ih2]

/-- The ASCII fast path and the general path of `strings.Fields` agree. -/
theorem Fields_eq (s : Str) : Fields s = fieldsLoop IsSpace s none := by
  unfold Fields
  split
  · rename_i h
    apply fieldsLoop_congr
    intro c hc
    rw [List.all_eq_true] at h
    exact asciiSpace_eq_IsSpace c (by simpa using h c hc)
  · rfl

theorem fieldsLoop_nil_none (f : Char → Bool) : fieldsLoop f [] none = [] := rfl

theorem fieldsLoop_nil_some (f : Char → Bool) (tok : Str) :
    fieldsLoop f [] (some tok) = [tok] := rfl

theorem fieldsLoop_cons_none (f : Char → Bool) (r : Char) (rest : Str) :
    fieldsLoop f (r :: rest) none =
      if f r then fieldsLoop f rest none else fieldsLoop f rest (some [r]) := rfl

theorem fieldsLoop_cons_some (f : Char → Bool) (r : Char) (rest tok : Str) :
    fieldsLoop f (r :: rest) (some tok) =
      if f r then tok :: fieldsLoop f rest none else fieldsLoop f rest (some (tok ++ [r])) := rfl

/-- A string with no separator in it only extends the field being read. -/
theorem fieldsLoop_token_some (f : Char → Bool) (t rest tok : Str)
    (ht : ∀ c ∈ t, f c = false) :
    fieldsLoop f (t ++ rest) (some tok) = fieldsLoop f rest (some (tok ++ t)) := by
  induction t generalizing tok with
  | nil => simp
  | cons c t ih =>
    have hc : f c = false := ht c (List.mem_cons_self _ _)
    have := ih (tok ++ [c]) (fun d hd => ht d (List.mem_cons_of_mem _ hd))
    rw [List.cons_append, fieldsLoop_cons_some, hc, if_neg (by simp), this]
    simp

theorem fieldsLoop_token_none (f : Char → Bool) (t rest : Str) (hne : t ≠ [])
    (ht : ∀ c ∈ t, f c = false) :
    fieldsLoop f (t ++ rest) none = fieldsLoop f rest (some t) := by
  cases t with
  | nil => exact absurd rfl hne
  | cons c t =>
    have hc : f c = false := ht c (List.mem_cons_self _ _)
    have := fieldsLoop_token_some f t rest [c] (fun d hd => ht d (List.mem_cons_of_mem _ hd))
    rw [List.cons_append, fieldsLoop_cons_none, hc, if_neg (by simp), this]
    simp

/-- Separators before a field are skipped. -/
theorem fieldsLoop_space_none (f : Char → Bool) (w rest : Str) (hw : ∀ c ∈ w, f c = true) :
    fieldsLoop f (w ++ rest) none = fieldsLoop f rest none := by
  induction w with
  | nil => rfl
  | cons c w ih =>
    have hc : f c = true := hw c (List.mem_cons_self _ _)
    rw [List.cons_append, fieldsLoop_cons_none, hc, if_pos rfl]
    exact ih (fun d hd => hw d (List.mem_cons_of_mem _ hd))

/-- A non-empty run of separators closes the field being read. -/
theorem fieldsLoop_space_some (f : Char → Bool) (w rest tok : Str) (hne : w ≠ [])
    (hw : ∀ c ∈ w, f c = true) :
    fieldsLoop f (w ++ rest) (some tok) = tok :: fieldsLoop f rest none := by
  cases w with
  | nil => exact absurd rfl hne
  | cons c w =>
    have hc : f c = true := hw c (List.mem_cons_self _ _)
    rw [List.cons_append, fieldsLoop_cons_some, hc, if_pos rfl,
      fieldsLoop_space_none f w rest (fun d hd => hw d (List.mem_cons_of_mem _ hd))]

/-- Every field the loop yields is non-empty and holds no separator. -/
theorem fieldsLoop_fields (f : Char → Bool) (s : Str) (start : Option Str)
    (hstart : ∀ tok, start = some tok → tok ≠ [] ∧ ∀ c ∈ tok, f c = false) :
    ∀ t ∈ fieldsLoop f s start, t ≠ [] ∧ ∀ c ∈ t, f c = false := by
  induction s generalizing start with
  | nil =>
    cases start with
    | none => simp [fieldsLoop_nil_none]
    | some tok =>
      intro t ht
      rw [fieldsLoop_nil_some, List.mem_singleton] at ht
      exact ht ▸ hstart tok rfl
  | cons r rest ih =>
    have hnone : ∀ tok, (none : Option Str) = some tok → tok ≠ [] ∧ ∀ c ∈ tok, f c = false := by
      intro tok h; cases h
    cases start with
    | none =>
      rw [fieldsLoop_cons_none]
      by_cases hr : f r = true
      · rw [if_pos hr]; exact ih none hnone
      · rw [if_neg hr]
        apply ih
        intro tok htok
        cases htok
        exact ⟨by simp, by simpa using hr⟩
    | some tok0 =>
      rw [fieldsLoop_cons_some]
      by_cases hr : f r = true
      · rw [if_pos hr]
        intro t ht
        rcases List.mem_cons.mp ht with h | h
        · exact h ▸ hstart tok0 rfl
        · exact ih none hnone t h
      · rw [if_neg hr]
        apply ih
        intro tok htok
        cases htok
        refine ⟨by simp, ?_⟩
        intro c hc
        rcases List.mem_append.mp hc with h | h
        · exact (hstart tok0 rfl).2 c h
        · have : c = r := by simpa using h
          rw [this]; simpa using hr

/-- Separators at the end of the input add nothing. -/
theorem fieldsLoop_space_end (f : Char → Bool) (s w : Str) (start : Option Str)
    (hw : ∀ c ∈ w, f c = true) :
    fieldsLoop f (s ++ w) start = fieldsLoop f s start := by
  induction s generalizing start with
  | nil =>
    cases start with
    | none =>
      have := fieldsLoop_space_none f w [] hw
      simpa using this
    | some tok =>
      by_cases hne : w = []
      · subst hne; rfl
      · have := fieldsLoop_space_some f w [] tok hne hw
        simpa using this
  | cons r rest ih =>
    cases start with
    | none => rw [List.cons_append, fieldsLoop_cons_none, fieldsLoop_cons_none, ih, ih]
    | some tok => rw [List.cons_append, fieldsLoop_cons_some, fieldsLoop_cons_some, ih, ih]

/-- A non-empty run of separators inside the input splits it in two. -/
theorem fieldsLoop_space_mid (f : Char → Bool) (s w s2 : Str) (start : Option Str)
    (hne : w ≠ []) (hw : ∀ c ∈ w, f c = true) :
    fieldsLoop f (s ++ (w ++ s2)) start = fieldsLoop f s start ++ fieldsLoop f s2 none := by
  induction s generalizing start with
  | nil =>
    cases start with
    | none => simpa [fieldsLoop_nil_none] using fieldsLoop_space_none f w s2 hw
    | some tok => simpa [fieldsLoop_nil_some] using fieldsLoop_space_some f w s2 tok hne hw
  | cons r rest ih =>
    cases start with
    | none =>
      rw [List.cons_append, fieldsLoop_cons_none, fieldsLoop_cons_none, ih, ih]
      split <;> rfl
    | some tok =>
      rw [List.cons_append, fieldsLoop_cons_some, fieldsLoop_cons_some, ih, ih]
      split <;> simp

/-- Fields joined by single separators are read back unchanged. -/
theorem fieldsLoop_join (f : Char → Bool) (hsp : f ' ' = true) (l : List Str)
    (hl : ∀ t ∈ l, t ≠ [] ∧ ∀ c ∈ t, f c = false) :
    fieldsLoop f (joinSpace l) none = l := by
  induction l with
  | nil => rfl
  | cons a rest ih =>
    have ha := hl a (List.mem_cons_self _ _)
    have hrest : ∀ t ∈ rest, t ≠ [] ∧ ∀ c ∈ t, f c = false :=
      fun t ht => hl t (List.mem_cons_of_mem _ ht)
    cases rest with
    | nil =>
      have := fieldsLoop_token_none f a [] ha.1 ha.2
      simpa [joinSpace, fieldsLoop_nil_some] using this
    | cons b more =>
      have h1 : joinSpace (a :: b :: more) = a ++ ([' '] ++ joinSpace (b :: more)) := rfl
      rw [h1, fieldsLoop_token_none f a _ ha.1 ha.2,
        fieldsLoop_space_some f [' '] _ a (by simp) (by simpa using hsp), ih hrest]

/-- The loop yields no field only on an input made of separators. -/
theorem fieldsLoop_some_ne_nil (f : Char → Bool) (s tok : Str) :
    fieldsLoop f s (some tok) ≠ [] := by
  induction s generalizing tok with
  | nil => simp [fieldsLoop_nil_some]
  | cons r rest ih =>
    rw [fieldsLoop_cons_some]
    split
    · simp
    · exact ih _

theorem fieldsLoop_nil_all (f : Char → Bool) (s : Str) (h : fieldsLoop f s none = []) :
    ∀ c ∈ s, f c = true := by
  induction s with
  | nil => intro c hc; cases hc
  | cons r rest ih =>
    rw [fieldsLoop_cons_none] at h
    by_cases hr : f r = true
    · rw [if_pos hr] at h
      intro c hc
      rcases List.mem_cons.mp hc with e | e
      · exact e ▸ hr
      · exact ih h c e
    · rw [if_neg hr] at h
      exact absurd h (fieldsLoop_some_ne_nil f rest [r])

theorem IsSpace_space : IsSpace ' ' = true := by decide

/-! ## package flag: the flags of `main` over a command line -/

theorem findEq_none (t : Str) (h : '=' ∉ t) : findEq t = none := by
  induction t with
  | nil => rfl
  | cons c t ih =>
    have hc : c ≠ '=' := fun e => h (e ▸ List.mem_cons_self _ _)
    have := ih (fun hm => h (List.mem_cons_of_mem _ hm))
    simp [findEq, hc, this]

theorem findEq_append (t v : Str) (h : '=' ∉ t) : findEq (t ++ '=' :: v) = some (t, v) := by
  induction t with
  | nil => simp [findEq]
  | cons c t ih =>
    have hc : c ≠ '=' := fun e => h (e ▸ List.mem_cons_self _ _)
    have := ih (fun hm => h (List.mem_cons_of_mem _ hm))
    simp [findEq, hc, this]

theorem Name_shape (id : FlagId) :
    ∃ c t, id.Name = c :: t ∧ c ≠ '-' ∧ c ≠ '=' ∧ '=' ∉ t := by
  cases id <;> exact ⟨_, _, rfl, by decide, by decide, by decide⟩

theorem Name_inj : ∀ a b : FlagId, a.Name = b.Name → a = b := by
  intro a b
  cases a <;> cases b <;> first | (intro _; rfl) | (intro h; exact absurd h (by decide))

theorem Name_eq_iff (a b : FlagId) : a.Name = b.Name ↔ a = b :=
  ⟨Name_inj a b, fun h => h ▸ rfl⟩

theorem formal_eq (sys : Sys) : (defineFlags sys).1.formal =
    [⟨FlagId.port.Name, .intValue (fun c v => { c with port := v })⟩,
     ⟨FlagId.env.Name, .stringValue (fun c v => { c with env := v })⟩,
     ⟨FlagId.dbDsn.Name, .stringValue (fun c v => { c with db := { c.db with dsn := v } })⟩,
     ⟨FlagId.dbMaxOpenConns.Name,
      .intValue (fun c v => { c with db := { c.db with maxOpenConns := v } })⟩,
     ⟨FlagId.dbMaxIdleConns.Name,
      .intValue (fun c v => { c with db := { c.db with maxIdleConns := v } })⟩,
     ⟨FlagId.dbMaxIdleTime.Name,
      .durationValue (fun c v => { c with db := { c.db with maxIdleTime := v } })⟩,
     ⟨FlagId.limiterRps.Name,
      .float64Value (fun c v => { c with limiter := { c.limiter with rps := v } })⟩,
     ⟨FlagId.limiterBurst.Name,
      .intValue (fun c v => { c with limiter := { c.limiter with burst := v } })⟩,
     ⟨FlagId.limiterEnabled.Name,
      .boolValue (fun c v => { c with limiter := { c.limiter with enabled := v } })⟩,
     ⟨FlagId.smtpHost.Name, .stringValue (fun c v => { c with smtp := { c.smtp with host := v } })⟩,
     ⟨FlagId.smtpPort.Name, .intValue (fun c v => { c with smtp := { c.smtp with port := v } })⟩,
     ⟨FlagId.smtpUsername.Name,
      .stringValue (fun c v => { c with smtp := { c.smtp with username := v } })⟩,
     ⟨FlagId.smtpPassword.Name,
      .stringValue (fun c v => { c with smtp := { c.smtp with password := v } })⟩,
     ⟨FlagId.smtpSender.Name,
      .stringValue (fun c v => { c with smtp := { c.smtp with sender := v } })⟩,
     ⟨FlagId.corsTrustedOrigins.Name, .funcValue corsFunc⟩] := rfl

theorem lookup_Name (sys : Sys) (f : FlagSet) (hf : f.formal = (defineFlags sys).1.formal)
    (id : FlagId) :
    ∃ flag, f.lookup id.Name = some flag ∧ flag.Value.IsBoolFlag = id.isBool ∧
      ∀ text cfg tv, parseT sys id text = some tv →
        ∃ cfg', flag.Value.Set sys text cfg = .ok cfg' ∧ cfg'.get id = tv ∧
          ∀ id', id' ≠ id → cfg'.get id' = cfg.get id' := by
  unfold FlagSet.lookup
  rw [hf, formal_eq]
  cases id <;>
    simp only [List.find?_cons, Name_eq_iff, reduceCtorEq, decide_False, decide_True]
  case port | dbMaxOpenConns | dbMaxIdleConns | limiterBurst | smtpPort =>
    refine ⟨_, rfl, rfl, ?_⟩
    intro text cfg tv h
    simp only [parseT] at h
    simp only [FlagValue.Set]
    cases hp : ParseInt text with
    | error e => rw [hp] at h; simp [Except.toOption] at h
    | ok n =>
      rw [hp] at h; simp only [Except.toOption, Option.map_some', Option.some.injEq] at h
      subst h
      refine ⟨_, rfl, rfl, ?_⟩
      intro id' hne
      cases id' <;> first | exact absurd rfl hne | rfl
  case limiterEnabled =>
    refine ⟨_, rfl, rfl, ?_⟩
    intro text cfg tv h
    simp only [parseT] at h
    simp only [FlagValue.Set]
    cases hp : ParseBool text with
    | error e => rw [hp] at h; simp [Except.toOption] at h
    | ok n =>
      rw [hp] at h; simp only [Except.toOption, Option.map_some', Option.some.injEq] at h
      subst h
      refine ⟨_, rfl, rfl, ?_⟩
      intro id' hne
      cases id' <;> first | exact absurd rfl hne | rfl
  case dbMaxIdleTime =>
    refine ⟨_, rfl, rfl, ?_⟩
    intro text cfg tv h
    simp only [parseT] at h
    simp only [FlagValue.Set]
    cases hp : sys.ParseDuration text with
    | none => rw [hp] at h; simp at h
    | some n =>
      rw [hp] at h; simp only [Option.map_some', Option.some.injEq] at h
      subst h
      refine ⟨_, rfl, rfl, ?_⟩
      intro id' hne
      cases id' <;> first | exact absurd rfl hne | rfl
  case limiterRps =>
    refine ⟨_, rfl, rfl, ?_⟩
    intro text cfg tv h
    simp only [parseT] at h
    simp only [FlagValue.Set]
    cases hp : sys.ParseFloat text with
    | none => rw [hp] at h; simp at h
    | some n =>
      rw [hp] at h; simp only [Option.map_some', Option.some.injEq] at h
      subst h
      refine ⟨_, rfl, rfl, ?_⟩
      intro id' hne
      cases id' <;> first | exact absurd rfl hne | rfl
  all_goals
    refine ⟨_, rfl, rfl, ?_⟩
    intro text cfg tv h
    simp only [parseT, Option.some.injEq] at h
    subst h
    refine ⟨_, rfl, rfl, ?_⟩
    intro id' hne
    cases id' <;> first | exact absurd rfl hne | rfl

theorem accepts_parseT (sys : Sys) (id : FlagId) (text : Str) (h : accepts sys id text = true) :
    ∃ tv, parseT sys id text = some tv := by
  cases id <;> simp only [accepts, parseT] at h ⊢ <;>
    first
      | exact ⟨_, rfl⟩
      | (obtain ⟨x, hx⟩ := Option.isSome_iff_exists.mp h
         exact ⟨_, by rw [hx]; rfl⟩)

theorem setOne_value (sys : Sys) (f : FlagSet) (cfg : config) (id : FlagId) (text : Str)
    (tv : TypedVal) (hf : f.formal = (defineFlags sys).1.formal)
    (hp : parseT sys id text = some tv) :
    ∃ cfg', f.setOne sys cfg id.Name (some text) =
        ⟨true, none, { f with actual := id.Name :: f.actual }, cfg'⟩ ∧
      cfg'.get id = tv ∧ ∀ id', id' ≠ id → cfg'.get id' = cfg.get id' := by
  obtain ⟨flag, hl, -, hset⟩ := lookup_Name sys f hf id
  obtain ⟨cfg', hs, hu⟩ := hset text cfg tv hp
  refine ⟨cfg', ?_, hu⟩
  unfold FlagSet.setOne
  rw [hl]
  simp only [hs, ite_self]

theorem setOne_bare (sys : Sys) (f : FlagSet) (cfg : config) (id : FlagId)
    (tv : TypedVal) (hf : f.formal = (defineFlags sys).1.formal) (hb : id.isBool = true)
    (hp : parseT sys id "true".toList = some tv) :
    ∃ cfg', f.setOne sys cfg id.Name none =
        ⟨true, none, { f with actual := id.Name :: f.actual }, cfg'⟩ ∧
      cfg'.get id = tv ∧ ∀ id', id' ≠ id → cfg'.get id' = cfg.get id' := by
  obtain ⟨flag, hl, hb', hset⟩ := lookup_Name sys f hf id
  obtain ⟨cfg', hs, hu⟩ := hset _ cfg tv hp
  refine ⟨cfg', ?_, hu⟩
  unfold FlagSet.setOne
  rw [hl]
  simp only [hb', hb, if_true, hs]

theorem setOne_next (sys : Sys) (f : FlagSet) (cfg : config) (id : FlagId) (text : Str)
    (rest : List Str) (tv : TypedVal) (hf : f.formal = (defineFlags sys).1.formal)
    (hb : id.isBool = false) (hargs : f.args = text :: rest)
    (hp : parseT sys id text = some tv) :
    ∃ cfg', f.setOne sys cfg id.Name none =
        ⟨true, none, { f with args := rest, actual := id.Name :: f.actual }, cfg'⟩ ∧
      cfg'.get id = tv ∧ ∀ id', id' ≠ id → cfg'.get id' = cfg.get id' := by
  obtain ⟨flag, hl, hb', hset⟩ := lookup_Name sys f hf id
  obtain ⟨cfg', hs, hu⟩ := hset _ cfg tv hp
  refine ⟨cfg', ?_, hu⟩
  unfold FlagSet.setOne
  rw [hl]
  simp only [hb', hb, Bool.false_eq_true, if_false, hargs, hs]

theorem splitNameValue_assign (id : FlagId) (v : Str) :
    splitNameValue (id.Name ++ '=' :: v) = (id.Name, some v) := by
  obtain ⟨c, t, hn, -, -, ht⟩ := Name_shape id
  rw [hn]
  simp only [List.cons_append, splitNameValue, findEq_append t v ht]

theorem splitNameValue_bare (id : FlagId) :
    splitNameValue id.Name = (id.Name, none) := by
  obtain ⟨c, t, hn, -, -, ht⟩ := Name_shape id
  rw [hn]
  simp only [splitNameValue, findEq_none t ht]

/-- The first half of `parseOne` on a token that is dashes, a flag name and a
tail. -/
theorem parseOne_dashes (sys : Sys) (f : FlagSet) (cfg : config) (d : Bool) (id : FlagId)
    (tail : Str) (rest : List Str) (hargs : f.args = (dashes d ++ id.Name ++ tail) :: rest) :
    f.parseOne sys cfg =
      FlagSet.setOne sys { f with args := rest } cfg (splitNameValue (id.Name ++ tail)).1
        (splitNameValue (id.Name ++ tail)).2 := by
  obtain ⟨c, t, hn, h1, h2, -⟩ := Name_shape id
  unfold FlagSet.parseOne
  rw [hargs, hn]
  cases d
  · simp [dashes, h1, h2]
  · simp [dashes, h1, h2]

/-- One round of `parseOne` on the arguments of a well-formed given flag:
the flag is seen, its arguments are consumed, its field holds its value and
no other field changes. -/
theorem parseOne_given (sys : Sys) (f : FlagSet) (cfg : config) (g : Given) (rest : List Str)
    (hf : f.formal = (defineFlags sys).1.formal) (hargs : f.args = g.tokens ++ rest)
    (hwf : g.wellFormed sys = true) :
    ∃ cfg' tv, f.parseOne sys cfg = ⟨true, none, ⟨f.formal, g.id.Name :: f.actual, rest⟩, cfg'⟩ ∧
      parseT sys g.id g.text = some tv ∧ cfg'.get g.id = tv ∧
      ∀ id', id' ≠ g.id → cfg'.get id' = cfg.get id' := by
  unfold Given.wellFormed at hwf
  rw [Bool.and_eq_true] at hwf
  obtain ⟨tv, htv⟩ := accepts_parseT sys g.id g.text hwf.1
  cases g with
  | assign d id v =>
    have h1 := parseOne_dashes sys f cfg d id ('=' :: v) rest (by simpa [Given.tokens] using hargs)
    rw [splitNameValue_assign] at h1
    obtain ⟨cfg', h2, h3⟩ := setOne_value sys { f with args := rest } cfg id v tv hf htv
    exact ⟨cfg', tv, by rw [h1, h2]; rfl, htv, h3⟩
  | next d id v =>
    have hb : id.isBool = false := by simpa using hwf.2
    have h1 := parseOne_dashes sys f cfg d id [] (v :: rest)
      (by simpa [Given.tokens] using hargs)
    rw [List.append_nil, splitNameValue_bare] at h1
    obtain ⟨cfg', h2, h3⟩ :=
      setOne_next sys { f with args := v :: rest } cfg id v rest tv hf hb rfl htv
    exact ⟨cfg', tv, by rw [h1, h2]; rfl, htv, h3⟩
  | bare d id =>
    have hb : id.isBool = true := by simpa using hwf.2
    have h1 := parseOne_dashes sys f cfg d id [] rest (by simpa [Given.tokens] using hargs)
    rw [List.append_nil, splitNameValue_bare] at h1
    obtain ⟨cfg', h2, h3⟩ := setOne_bare sys { f with args := rest } cfg id tv hf hb htv
    exact ⟨cfg', tv, by rw [h1, h2]; rfl, htv, h3⟩

theorem tokens_length_pos (g : Given) : 0 < g.tokens.length := by
  cases g <;> simp [Given.tokens]

theorem lastGiven_snoc (id : FlagId) (done : List Given) (g : Given) :
    lastGiven id (done ++ [g]) = if g.id = id then some g.text else lastGiven id done := by
  induction done with
  | nil => simp [lastGiven]
  | cons a done ih =>
    rw [List.cons_append, lastGiven, ih]
    by_cases h : g.id = id
    · simp [h]
    · simp only [h, if_false]; rfl

/-- On arguments that are not flags `parseOne` reports no flag and no error. -/
theorem parseOne_positional (sys : Sys) (f : FlagSet) (cfg : config)
    (h : positional f.args = true) :
    (f.parseOne sys cfg).seen = false ∧ (f.parseOne sys cfg).err = none ∧
      (f.parseOne sys cfg).cfg = cfg := by
  unfold FlagSet.parseOne
  unfold positional at h
  split
  · exact ⟨rfl, rfl, rfl⟩
  · rename_i s rest hargs
    rw [hargs] at h
    simp only at h
    split
    · rename_i c t
      simp only [decide_eq_true_eq] at h
      rw [if_pos h]
      exact ⟨rfl, rfl, rfl⟩
    · exact ⟨rfl, rfl, rfl⟩

/-- The loop of `Parse` over the arguments of well-formed given flags,
followed by arguments that are not flags: it ends without error, and every
field holds its resolved value. -/
theorem parseLoop_givens (sys : Sys) (gs : List Given) (tail : List Str)
    (htail : positional tail = true) :
    ∀ (done : List Given) (f : FlagSet) (cfg : config) (fuel : Nat),
      f.formal = (defineFlags sys).1.formal → f.args = commandLine gs ++ tail →
      f.args.length < fuel → (∀ g ∈ gs, g.wellFormed sys = true) →
      (∀ id, resolve (parseT sys id) (lastGiven id done) (defaultT sys id) = some (cfg.get id)) →
      ∃ f' cfg', FlagSet.parseLoop sys fuel f cfg = .ok (f', cfg') ∧
        ∀ id, resolve (parseT sys id) (lastGiven id (done ++ gs)) (defaultT sys id)
          = some (cfg'.get id) := by
  induction gs with
  | nil =>
    intro done f cfg fuel _ hargs hfuel _ hres
    cases fuel with
    | zero => exact absurd hfuel (Nat.not_lt_zero _)
    | succ n =>
      have h0 : positional f.args = true := by rw [hargs]; simpa [commandLine] using htail
      obtain ⟨h1, h2, h3⟩ := parseOne_positional sys f cfg h0
      refine ⟨(f.parseOne sys cfg).f, cfg, ?_, by simpa using hres⟩
      simp only [FlagSet.parseLoop, h1, h2, h3, Bool.false_eq_true, if_false]
  | cons g gs ih =>
    intro done f cfg fuel hf hargs hfuel hwf hres
    cases fuel with
    | zero => exact absurd hfuel (Nat.not_lt_zero _)
    | succ n =>
      have hargs' : f.args = g.tokens ++ (commandLine gs ++ tail) := by
        rw [hargs, commandLine, List.append_assoc]
      obtain ⟨cfg1, tv, h1, h2, h3, h4⟩ :=
        parseOne_given sys f cfg g (commandLine gs ++ tail) hf hargs'
          (hwf g (List.mem_cons_self _ _))
      have hlen : (commandLine gs ++ tail).length < n := by
        have := tokens_length_pos g
        rw [hargs'] at hfuel
        simp only [List.length_append] at hfuel ⊢
        omega
      obtain ⟨f', cfg', h5, h6⟩ := ih (done ++ [g])
        ⟨f.formal, g.id.Name :: f.actual, commandLine gs ++ tail⟩
        cfg1 n hf rfl hlen (fun x hx => hwf x (List.mem_cons_of_mem _ hx)) (by
          intro id
          rw [lastGiven_snoc]
          by_cases hid : g.id = id
          · subst hid
            simp only [if_true, resolve, h2, h3]
          · rw [if_neg hid, h4 id (fun e => hid e.symm)]
            exact hres id)
      refine ⟨f', cfg', ?_, by simpa using h6⟩
      simp only [FlagSet.parseLoop, h1, if_true]
      exact h5

theorem resolve_map {α : Type} (inj : α → TypedVal) (hinj : Function.Injective inj)
    (parse : Str → Option α) (given : Option Str) (fallback x : α)
    (h : resolve (fun v => (parse v).map inj) given (inj fallback) = some (inj x)) :
    resolve parse given fallback = some x := by
  cases given with
  | none =>
    simp only [resolve, Option.some.injEq] at h ⊢
    exact hinj h
  | some v =>
    simp only [resolve] at h ⊢
    cases hp : parse v with
    | none => rw [hp] at h; simp at h
    | some y =>
      rw [hp] at h
      simp only [Option.map_some', Option.some.injEq] at h
      rw [hinj h]

/-- The flags of `main` parsed over the command line of well-formed given
flags: every field is resolved. -/
theorem parseFlags_givens (sys : Sys) (gs : List Given) (tail : List Str)
    (hargs : sys.args = commandLine gs ++ tail) (htail : positional tail = true)
    (hwf : ∀ g ∈ gs, g.wellFormed sys = true) :
    ∃ cfg, parseFlags sys = .ok cfg ∧
      ∀ id, resolve (parseT sys id) (lastGiven id gs) (defaultT sys id) = some (cfg.get id) := by
  obtain ⟨f', cfg', h1, h2⟩ := parseLoop_givens sys gs tail htail []
    { (defineFlags sys).1 with args := sys.args }
    (defineFlags sys).2 (sys.args.length + 1) rfl hargs (Nat.lt_succ_self _) hwf (by
      intro id
      cases id <;> rfl)
  refine ⟨cfg', ?_, by simpa using h2⟩
  unfold parseFlags FlagSet.Parse
  rw [h1]

theorem setOne_args_le (sys : Sys) (f : FlagSet) (cfg : config) (name : Str)
    (value : Option Str) :
    (f.setOne sys cfg name value).f.args.length ≤ f.args.length := by
  unfold FlagSet.setOne
  (repeat' split) <;> simp_all

/-- A round of `parseOne` that sees a flag consumes at least one argument. -/
theorem parseOne_seen_length (sys : Sys) (f : FlagSet) (cfg : config)
    (h : (f.parseOne sys cfg).seen = true) :
    (f.parseOne sys cfg).f.args.length < f.args.length := by
  unfold FlagSet.parseOne at h ⊢
  split
  · rename_i h0; simp [h0] at h
  · rename_i s rest hargs
    rw [hargs] at h
    simp only at h
    split
    · rename_i c t
      simp only at h
      by_cases h1 : c = '-' ∧ t = []
      · rw [if_pos h1] at h; simp at h
      · rw [if_neg h1] at h ⊢
        simp only at h ⊢
        generalize (if c = '-' then t else c :: t) = name at h ⊢
        by_cases h2 : name.head? = none ∨ name.head? = some '-' ∨ name.head? = some '='
        · rw [if_pos h2] at h; simp at h
        · rw [if_neg h2]
          exact Nat.lt_of_le_of_lt (setOne_args_le _ _ _ _ _) (by simp [hargs])
    · rename_i h1
      split at h
      · rename_i c t; exact absurd rfl (h1 c t)
      · simp at h

/-- The fuel of `Parse` is enough: with more arguments' worth of fuel than
there are arguments the loop gives the same result, whatever the fuel. -/
theorem parseLoop_fuel (sys : Sys) (n : Nat) :
    ∀ (m : Nat) (f : FlagSet) (cfg : config), f.args.length < n → f.args.length < m →
      FlagSet.parseLoop sys n f cfg = FlagSet.parseLoop sys m f cfg := by
  induction n with
  | zero => intro m f cfg h; exact absurd h (Nat.not_lt_zero _)
  | succ n ih =>
    intro m f cfg hn hm
    cases m with
    | zero => exact absurd hm (Nat.not_lt_zero _)
    | succ m =>
      simp only [FlagSet.parseLoop]
      by_cases hs : (f.parseOne sys cfg).seen = true
      · have := parseOne_seen_length sys f cfg hs
        rw [if_pos hs, if_pos hs]
        exact ih m _ _ (by omega) (by omega)
      · rw [if_neg hs, if_neg hs]


/-! ## The properties of the specification -/

/-- C2 (as stated, refuted): the one-element list holding the origin `a<TAB>b` is
non-empty and free of the space character, yet parsing it yields two tokens,
`a` and `b`, not the list itself. -/
theorem cors_tab_splits_origin :
    "a\tb".toList ≠ [] ∧ ' ' ∉ "a\tb".toList ∧
      (corsFunc (joinSpace ["a\tb".toList]) config.zero).map (fun c => c.cors.trustedOrigins)
        = .ok ["a".toList, "b".toList] ∧
      ["a".toList, "b".toList] ≠ ["a\tb".toList] := by
  decide

/-- C2 (amended): for every list of non-empty origin strings holding no white
space character (`unicode.IsSpace`), parsing the list joined by single spaces
stores exactly that list, same order and multiplicity; the two examples of the
specification hold. -/
theorem cors_join_roundtrip (l : List Str) (cfg : config)
    (hl : ∀ t ∈ l, t ≠ [] ∧ ∀ c ∈ t, IsSpace c = false) :
    (corsFunc (joinSpace l) cfg).map (fun c => c.cors.trustedOrigins) = .ok l ∧
      (corsFunc "http://a.com http://b.com".toList cfg).map (fun c => c.cors.trustedOrigins)
        = .ok ["http://a.com".toList, "http://b.com".toList] ∧
      (corsFunc [] cfg).map (fun c => c.cors.trustedOrigins) = .ok [] := by
  refine ⟨?_, ?_, ?_⟩
  · have h : Fields (joinSpace l) = l := by
      rw [Fields_eq, fieldsLoop_join IsSpace IsSpace_space l hl]
    exact congrArg (@Except.ok Unit (List Str)) h
  · exact congrArg (@Except.ok Unit (List Str))
      (by decide : Fields "http://a.com http://b.com".toList
        = ["http://a.com".toList, "http://b.com".toList])
  · rfl

/-- Witness of C2: two equal origins joined by a space are read back as two. -/
theorem cors_join_roundtrip_witness :
    (corsFunc (joinSpace ["http://a.com".toList, "http://a.com".toList]) config.zero).map
        (fun c => c.cors.trustedOrigins) = .ok ["http://a.com".toList, "http://a.com".toList] :=
  (cors_join_roundtrip ["http://a.com".toList, "http://a.com".toList] config.zero
    (by decide)).1

/-- C10: for every input string the stored sequence is `strings.Fields` of it:
its tokens are non-empty and hold no white space character; a non-empty input
without white space is stored as the one token it is, and such an input followed
by white space and more input is that token followed by the tokens of the rest;
white space before, after and between tokens, of any kind and length, only
separates, and never produces an empty token; an input of white space alone
gives the empty sequence; the tokens joined by single spaces parse to the same
sequence; and a tab, a newline and repeated, leading and trailing blanks
separate the tokens of the sample inputs. -/
theorem cors_tokens_clean (val : Str) (cfg : config) :
    (corsFunc val cfg).map (fun c => c.cors.trustedOrigins) = .ok (Fields val) ∧
      (∀ t ∈ Fields val, t ≠ [] ∧ ∀ c ∈ t, IsSpace c = false) ∧
      ((∀ c ∈ val, IsSpace c = true) → Fields val = []) ∧
      (∀ w, (∀ c ∈ w, IsSpace c = true) → Fields (w ++ val) = Fields val) ∧
      (∀ w, (∀ c ∈ w, IsSpace c = true) → Fields (val ++ w) = Fields val) ∧
      (∀ w rest, w ≠ [] → (∀ c ∈ w, IsSpace c = true) →
        Fields (val ++ (w ++ rest)) = Fields val ++ Fields rest) ∧
      Fields (joinSpace (Fields val)) = Fields val ∧
      (val ≠ [] → (∀ c ∈ val, IsSpace c = false) → Fields val = [val]) ∧
      (val ≠ [] → (∀ c ∈ val, IsSpace c = false) →
        ∀ w rest, w ≠ [] → (∀ c ∈ w, IsSpace c = true) →
          Fields (val ++ (w ++ rest)) = val :: Fields rest) ∧
      (val ≠ [] → (∀ c ∈ val, IsSpace c = false) →
        ∀ lead trail, (∀ c ∈ lead, IsSpace c = true) → (∀ c ∈ trail, IsSpace c = true) →
          Fields (lead ++ (val ++ trail)) = [val]) ∧
      (Fields val = [] → ∀ c ∈ val, IsSpace c = true) ∧
      Fields "a\tb".toList = ["a".toList, "b".toList] ∧
      Fields "a\nb".toList = ["a".toList, "b".toList] ∧
      Fields " \n http://a.com \t\t http://b.com\n".toList
        = ["http://a.com".toList, "http://b.com".toList] ∧
      Fields " \t\n".toList = [] := by
  have hclean : ∀ t ∈ Fields val, t ≠ [] ∧ ∀ c ∈ t, IsSpace c = false := by
    rw [Fields_eq]
    exact fieldsLoop_fields IsSpace val none (by intro tok h; cases h)
  have hone : val ≠ [] → (∀ c ∈ val, IsSpace c = false) → Fields val = [val] := by
    intro hne hv
    have := fieldsLoop_token_none IsSpace val [] hne hv
    rw [Fields_eq]
    simpa [fieldsLoop_nil_some] using this
  have hmid : ∀ w rest, w ≠ [] → (∀ c ∈ w, IsSpace c = true) →
      Fields (val ++ (w ++ rest)) = Fields val ++ Fields rest := by
    intro w rest hne hw
    rw [Fields_eq, Fields_eq, Fields_eq, fieldsLoop_space_mid IsSpace val w rest none hne hw]
  refine ⟨rfl, hclean, ?_, ?_, ?_, hmid, ?_, hone, ?_, ?_, ?_, by decide, by decide, by decide,
    by decide⟩
  · intro h
    have := fieldsLoop_space_none IsSpace val [] h
    rw [Fields_eq]
    simpa [fieldsLoop_nil_none] using this
  · intro w hw
    rw [Fields_eq, Fields_eq, fieldsLoop_space_none IsSpace w val hw]
  · intro w hw
    rw [Fields_eq, Fields_eq, fieldsLoop_space_end IsSpace val w none hw]
  · rw [Fields_eq (joinSpace _)]
    exact fieldsLoop_join IsSpace IsSpace_space _ hclean
  · intro hne hv w rest hw1 hw2
    rw [hmid w rest hw1 hw2, hone hne hv]
    rfl
  · intro hne hv lead trail hl ht
    rw [Fields_eq, fieldsLoop_space_none IsSpace lead _ hl,
      fieldsLoop_space_end IsSpace val trail none ht, ← Fields_eq, hone hne hv]
  · intro hempty
    rw [Fields_eq] at hempty
    exact fieldsLoop_nil_all IsSpace val hempty

theorem TypedVal.int_injective : Function.Injective TypedVal.int := fun _ _ h => by
  cases h; rfl

theorem TypedVal.str_injective : Function.Injective TypedVal.str := fun _ _ h => by
  cases h; rfl

theorem TypedVal.float_injective : Function.Injective TypedVal.float := fun _ _ h => by
  cases h; rfl

theorem TypedVal.bool_injective : Function.Injective TypedVal.bool := fun _ _ h => by
  cases h; rfl

theorem TypedVal.strs_injective : Function.Injective TypedVal.strs := fun _ _ h => by
  cases h; rfl

/-- C1: for every environment and every command line that gives well-formed
flags (followed or not by arguments that are not flags), flag parsing in `main`
succeeds and each field of the resolved configuration is the value of its flag
as last given on the command line if the flag was given, else the value read
from its environment variable, else (for `smtp-sender` and
`cors-trusted-origins`, which have no variable) the documented default. -/
theorem config_resolution (sys : Sys) (gs : List Given) (tail : List Str)
    (hargs : sys.args = commandLine gs ++ tail) (htail : positional tail = true)
    (hwf : ∀ g ∈ gs, g.wellFormed sys = true) :
    ∃ cfg, parseFlags sys = .ok cfg ∧
      resolve (fun v => (ParseInt v).toOption) (lastGiven .port gs)
        (sys.GetInt "PORT".toList) = some cfg.port ∧
      resolve some (lastGiven .env gs) (sys.GetString "ENV".toList) = some cfg.env ∧
      resolve some (lastGiven .dbDsn gs) (sys.GetString "GOFLIX_DB_DSN".toList)
        = some cfg.db.dsn ∧
      resolve (fun v => (ParseInt v).toOption) (lastGiven .dbMaxOpenConns gs)
        (sys.GetInt "DB_MAX_OPEN_CONNS".toList) = some cfg.db.maxOpenConns ∧
      resolve (fun v => (ParseInt v).toOption) (lastGiven .dbMaxIdleConns gs)
        (sys.GetInt "DB_MAX_IDLE_CONNS".toList) = some cfg.db.maxIdleConns ∧
      resolve sys.ParseDuration (lastGiven .dbMaxIdleTime gs)
        (sys.GetDuration "DB_MAX_IDLE_TIME".toList) = some cfg.db.maxIdleTime ∧
      resolve sys.ParseFloat (lastGiven .limiterRps gs)
        (sys.GetFloat64 "LIMITER_RPS".toList) = some cfg.limiter.rps ∧
      resolve (fun v => (ParseInt v).toOption) (lastGiven .limiterBurst gs)
        (sys.GetInt "LIMITER_BURST".toList) = some cfg.limiter.burst ∧
      resolve (fun v => (ParseBool v).toOption) (lastGiven .limiterEnabled gs)
        (sys.GetBool "LIMITER_ENABLED".toList) = some cfg.limiter.enabled ∧
      resolve some (lastGiven .smtpHost gs) (sys.GetString "SMTP_HOST".toList)
        = some cfg.smtp.host ∧
      resolve (fun v => (ParseInt v).toOption) (lastGiven .smtpPort gs)
        (sys.GetInt "SMTP_PORT".toList) = some cfg.smtp.port ∧
      resolve some (lastGiven .smtpUsername gs) (sys.GetString "SMTP_USERNAME".toList)
        = some cfg.smtp.username ∧
      resolve some (lastGiven .smtpPassword gs) (sys.GetString "SMTP_PASSWORD".toList)
        = some cfg.smtp.password ∧
      resolve some (lastGiven .smtpSender gs) "GoFlix <no-reply@goflix.bhavya.net>".toList
        = some cfg.smtp.sender ∧
      resolve (fun v => some (Fields v)) (lastGiven .corsTrustedOrigins gs) []
        = some cfg.cors.trustedOrigins := by
  obtain ⟨cfg, h1, h2⟩ := parseFlags_givens sys gs tail hargs htail hwf
  refine ⟨cfg, h1, ?_, ?_, ?_, ?_, ?_, ?_, ?_, ?_, ?_, ?_, ?_, ?_, ?_, ?_, ?_⟩
  · exact resolve_map .int TypedVal.int_injective _ _ _ _ (h2 .port)
  · exact resolve_map .str TypedVal.str_injective _ _ _ _ (h2 .env)
  · exact resolve_map .str TypedVal.str_injective _ _ _ _ (h2 .dbDsn)
  · exact resolve_map .int TypedVal.int_injective _ _ _ _ (h2 .dbMaxOpenConns)
  · exact resolve_map .int TypedVal.int_injective _ _ _ _ (h2 .dbMaxIdleConns)
  · exact resolve_map .int TypedVal.int_injective _ _ _ _ (h2 .dbMaxIdleTime)
  · exact resolve_map .float TypedVal.float_injective _ _ _ _ (h2 .limiterRps)
  · exact resolve_map .int TypedVal.int_injective _ _ _ _ (h2 .limiterBurst)
  · exact resolve_map .bool TypedVal.bool_injective _ _ _ _ (h2 .limiterEnabled)
  · exact resolve_map .str TypedVal.str_injective _ _ _ _ (h2 .smtpHost)
  · exact resolve_map .int TypedVal.int_injective _ _ _ _ (h2 .smtpPort)
  · exact resolve_map .str TypedVal.str_injective _ _ _ _ (h2 .smtpUsername)
  · exact resolve_map .str TypedVal.str_injective _ _ _ _ (h2 .smtpPassword)
  · exact resolve_map .str TypedVal.str_injective _ _ _ _ (h2 .smtpSender)
  · exact resolve_map .strs TypedVal.strs_injective _ _ _ _ (h2 .corsTrustedOrigins)

/-- Witness of C1: on the sample command line the flags are well formed, and
the port is the one given last, the limiter is on, the origins are the two
given, the environment name is the one read from `ENV`. -/
theorem config_resolution_witness :
    Sys.sample.args = commandLine Given.sample ++ ["serve".toList, "-port=1".toList] ∧
      positional ["serve".toList, "-port=1".toList] = true ∧
      (∀ g ∈ Given.sample, g.wellFormed Sys.sample = true) ∧
      ∃ cfg, parseFlags Sys.sample = .ok cfg ∧ cfg.port = 5000 ∧ cfg.env = [] ∧
        cfg.limiter.enabled = true ∧
        cfg.cors.trustedOrigins = ["http://a.com".toList, "http://b.com".toList] := by
  refine ⟨rfl, rfl, by decide, ?_⟩
  obtain ⟨cfg, h, hport, henv, -, -, -, -, -, -, hen, -, -, -, -, -, hcors⟩ :=
    config_resolution Sys.sample Given.sample ["serve".toList, "-port=1".toList] rfl rfl
      (by decide)
  refine ⟨cfg, h, ?_, ?_, ?_, ?_⟩
  · have e : resolve (fun v => (ParseInt v).toOption) (lastGiven .port Given.sample)
        (Sys.sample.GetInt "PORT".toList) = some 5000 := by decide
    exact Option.some.inj (hport.symm.trans e)
  · have e : resolve some (lastGiven .env Given.sample)
        (Sys.sample.GetString "ENV".toList) = some [] := by decide
    exact Option.some.inj (henv.symm.trans e)
  · have e : resolve (fun v => (ParseBool v).toOption) (lastGiven .limiterEnabled Given.sample)
        (Sys.sample.GetBool "LIMITER_ENABLED".toList) = some true := by decide
    exact Option.some.inj (hen.symm.trans e)
  · have e : resolve (fun v => some (Fields v)) (lastGiven .corsTrustedOrigins Given.sample) []
        = some ["http://a.com".toList, "http://b.com".toList] := by decide
    exact Option.some.inj (hcors.symm.trans e)

/-- C3 (as stated, refuted): `abc` is a malformed value for the integer flag
`-port`, and the run given `-port=abc` exits with status 2, not 1, with nothing
logged by `log.Fatal` or `logger.Error`: package flag prints its own message
and the usage text. -/
theorem malformed_flag_exits_2 :
    ParseInt "abc".toList = .error .syntaxErr ∧
      (main Sys.badPort).exit = 2 ∧ (main Sys.badPort).exit ≠ 1 ∧
      errorsLogged (main Sys.badPort).trace = 0 ∧
      (main Sys.badPort).trace
        = [.flagMessage (.invalidValue "abc".toList "port".toList), .flagUsage] := by
  decide

/-- C3 (amended): a missing `.env` file, a failure of `openDB` and an error
returned by `serve` each end the process with status 1 after exactly one logged
error, which is the last thing the process does; a command line that package
flag rejects ends it with status 2 after the flag package's message and usage
text, with no error logged. -/
theorem fatal_exit (sys : Sys) :
    (∀ err, sys.godotenvLoad = some err →
      (main sys).exit = 1 ∧ errorsLogged (main sys).trace = 1 ∧
      (main sys).trace.getLast? = some (.logFatal "Error loading .env file".toList)) ∧
    (sys.godotenvLoad = none → ∀ e, parseFlags sys = .error e → e ≠ .ErrHelp →
      (main sys).exit = 2 ∧ errorsLogged (main sys).trace = 0 ∧
      (main sys).trace = [.flagMessage e, .flagUsage]) ∧
    (sys.godotenvLoad = none → ∀ cfg err, parseFlags sys = .ok cfg →
      (openDB sys cfg).err = some err →
      (main sys).exit = 1 ∧ errorsLogged (main sys).trace = 1 ∧
      (main sys).trace.getLast? = some (.loggerError err)) ∧
    (sys.godotenvLoad = none → ∀ cfg err, parseFlags sys = .ok cfg →
      (openDB sys cfg).err = none → sys.serve = some err →
      (main sys).exit = 1 ∧ errorsLogged (main sys).trace = 1 ∧
      (main sys).trace.getLast? = some (.loggerError err)) := by
  refine ⟨?_, ?_, ?_, ?_⟩
  · intro err h
    simp [main, h, osExit, Proc.emit, errorsLogged, Event.isErrorLog]
  · intro h e he hne
    simp [main, h, he, hne, osExit, Proc.emit, errorsLogged, Event.isErrorLog]
  · intro h cfg err hc ho
    unfold main
    simp only [h, hc, ho]
    unfold openDB at ho ⊢
    cases h1 : sys.sqlOpen "postgres".toList cfg.db.dsn with
    | some e1 =>
      simp [osExit, Proc.emit, errorsLogged, Event.isErrorLog]
    | none =>
      cases h2 : sys.ping cfg.db.dsn (5 * Second) with
      | some e2 => simp [osExit, Proc.emit, errorsLogged, Event.isErrorLog]
      | none => rw [h1, h2] at ho; simp at ho
  · intro h cfg err hc ho hs
    unfold main
    simp only [h, hc, ho, hs]
    unfold openDB at ho ⊢
    cases h1 : sys.sqlOpen "postgres".toList cfg.db.dsn with
    | some e1 => rw [h1] at ho; simp at ho
    | none =>
      cases h2 : sys.ping cfg.db.dsn (5 * Second) with
      | some e2 => rw [h1, h2] at ho; simp at ho
      | none =>
        simp [osExit, Proc.emit, Proc.defer, Proc.Publish, errorsLogged, Event.isErrorLog]

/-- Witness of C3: the four kinds of failing run, each at a sample. -/
theorem fatal_exit_witness :
    ((main Sys.noDotenv).exit = 1 ∧ errorsLogged (main Sys.noDotenv).trace = 1) ∧
      ((main Sys.badPort).exit = 2 ∧ errorsLogged (main Sys.badPort).trace = 0) ∧
      ((main Sys.pingFails).exit = 1 ∧ errorsLogged (main Sys.pingFails).trace = 1) ∧
      ((main Sys.serveFails).exit = 1 ∧ errorsLogged (main Sys.serveFails).trace = 1) := by
  have h1 := (fatal_exit Sys.noDotenv).1 _ rfl
  have h2 := (fatal_exit Sys.badPort).2.1 rfl
    (.invalidValue "abc".toList "port".toList) (by decide) (by decide)
  have h3 := (fatal_exit Sys.pingFails).2.2.1 rfl (defineFlags Sys.quiet).2
    "context deadline exceeded".toList (by decide) (by decide)
  have h4 := (fatal_exit Sys.serveFails).2.2.2 rfl (defineFlags Sys.quiet).2
    "listen tcp :4000: bind: address already in use".toList (by decide) (by decide) rfl
  exact ⟨⟨h1.1, h1.2.1⟩, ⟨h2.1, h2.2.1⟩, ⟨h3.1, h3.2.1⟩, ⟨h4.1, h4.2.1⟩⟩

/-- C4: `openDB` returns a handle only when both `sql.Open` and the ping
succeed. If either fails it returns a nil handle and the error; if both succeed
it returns the opened, configured pool and a nil error; it never returns both a
handle and an error, and the ping runs under a 5-second deadline. -/
theorem openDB_handle_or_error (sys : Sys) (cfg : config) :
    (∀ err, sys.sqlOpen "postgres".toList cfg.db.dsn = some err →
      (openDB sys cfg).db = none ∧ (openDB sys cfg).err = some err) ∧
    (∀ err, sys.sqlOpen "postgres".toList cfg.db.dsn = none →
      sys.ping cfg.db.dsn (5 * Second) = some err →
      (openDB sys cfg).db = none ∧ (openDB sys cfg).err = some err) ∧
    (sys.sqlOpen "postgres".toList cfg.db.dsn = none →
      sys.ping cfg.db.dsn (5 * Second) = none →
      (openDB sys cfg).err = none ∧
      (openDB sys cfg).db = some ((((DB.fresh cfg.db.dsn).SetMaxOpenConns
        cfg.db.maxOpenConns).SetMaxIdleConns cfg.db.maxIdleConns).SetConnMaxIdleTime
        cfg.db.maxIdleTime) ∧
      Event.WithTimeout 5000000000 ∈ (openDB sys cfg).events) ∧
    ((openDB sys cfg).db.isSome → sys.sqlOpen "postgres".toList cfg.db.dsn = none ∧
      sys.ping cfg.db.dsn (5 * Second) = none) ∧
    ¬ ((openDB sys cfg).db.isSome ∧ (openDB sys cfg).err.isSome) ∧
    ((openDB sys cfg).db.isSome ∨ (openDB sys cfg).err.isSome) := by
  unfold openDB
  cases h1 : sys.sqlOpen "postgres".toList cfg.db.dsn with
  | some e1 => simp
  | none =>
    cases h2 : sys.ping cfg.db.dsn (5 * Second) with
    | some e2 => simp
    | none => simp [Second]

/-- Witness of C4: the three outcomes of `openDB`, each at a sample run. -/
theorem openDB_handle_or_error_witness :
    ((openDB Sys.openFails config.usual).db = none ∧
        (openDB Sys.openFails config.usual).err = some "sql: unknown driver".toList) ∧
      ((openDB Sys.pingFails config.usual).db = none ∧
        (openDB Sys.pingFails config.usual).err = some "context deadline exceeded".toList) ∧
      ((openDB Sys.quiet config.usual).err = none ∧ (openDB Sys.quiet config.usual).db.isSome) := by
  have h := openDB_handle_or_error Sys.quiet config.usual
  have h3 := h.2.2.1 rfl rfl
  exact ⟨(openDB_handle_or_error Sys.openFails config.usual).1 _ rfl,
    (openDB_handle_or_error Sys.pingFails config.usual).2.1 _ rfl rfl,
    h3.1, by rw [h3.2.1]; rfl⟩

/-- C5 (as stated, refuted): with five open and ten idle connections asked for,
`openDB` succeeds and the pool's idle limit is five, not ten; with negative
limits asked for, the pool's limits are all zero. -/
theorem pool_limits_clamped :
    (∃ db, (openDB Sys.quiet config.idleAboveOpen).db = some db ∧
        (openDB Sys.quiet config.idleAboveOpen).err = none ∧
        config.idleAboveOpen.db.maxIdleConns = 10 ∧ db.maxIdleConnsLocked = 5 ∧
        db.maxIdleConnsLocked ≠ config.idleAboveOpen.db.maxIdleConns) ∧
      (∃ db, (openDB Sys.quiet config.negativeLimits).db = some db ∧
        config.negativeLimits.db.maxOpenConns = -1 ∧ db.maxOpen = 0 ∧
        db.Stats.MaxOpenConnections = 0 ∧ db.maxIdleConnsLocked = 0 ∧ db.maxIdleTime = 0) := by
  refine ⟨⟨_, rfl, rfl, ?_⟩, ⟨_, rfl, ?_⟩⟩ <;> decide

theorem SetMaxIdleConns_maxOpen (db : DB) (n : Int) :
    (db.SetMaxIdleConns n).maxOpen = db.maxOpen ∧
      (db.SetMaxIdleConns n).maxIdleTime = db.maxIdleTime := by
  unfold DB.SetMaxIdleConns
  by_cases h : n > 0 <;> simp only [h, if_true, if_false] <;> split <;> exact ⟨rfl, rfl⟩

theorem SetMaxIdleConns_locked (db : DB) (n : Int) :
    (db.SetMaxIdleConns n).maxIdleConnsLocked =
      if n ≤ 0 then 0 else if 0 < db.maxOpen ∧ db.maxOpen < n then db.maxOpen else n := by
  unfold DB.SetMaxIdleConns
  by_cases h : n > 0
  · have h' : ¬ n ≤ 0 := by omega
    simp only [h, if_true, h', if_false, DB.maxIdleConnsLocked]
    have h0 : ¬ n = 0 := by omega
    have h1 : ¬ n < 0 := by omega
    simp only [h0, h1, if_false]
    by_cases h2 : 0 < db.maxOpen ∧ db.maxOpen < n
    · have h3 : db.maxOpen > 0 ∧ n > db.maxOpen := ⟨h2.1, h2.2⟩
      have h4 : ¬ db.maxOpen = 0 := by omega
      have h5 : ¬ db.maxOpen < 0 := by omega
      simp only [h3, and_self, if_true, h2, h4, h5, if_false]
    · have h3 : ¬ (db.maxOpen > 0 ∧ n > db.maxOpen) := fun hh => h2 ⟨hh.1, hh.2⟩
      simp only [h3, if_false, h2, h0, h1]
  · have h' : n ≤ 0 := by omega
    simp only [h, if_false, h', if_true, DB.maxIdleConnsLocked]
    have e1 : ¬ ((-1 : Int) = 0) := by decide
    have e2 : (-1 : Int) < 0 := by decide
    simp only [e1, if_false, e2, if_true]
    have h3 : ¬ (db.maxOpen > 0 ∧ (0 : Int) > db.maxOpen) := by omega
    simp only [h3, if_false, e1, e2, if_true]

theorem SetMaxOpenConns_maxOpen (db : DB) (n : Int) :
    (db.SetMaxOpenConns n).maxOpen = max n 0 ∧
      (db.SetMaxOpenConns n).maxIdleTime = db.maxIdleTime := by
  unfold DB.SetMaxOpenConns
  by_cases h : n < 0
  · have hm : max n 0 = 0 := by omega
    simp only [h, if_true, hm]
    split
    · exact ⟨(SetMaxIdleConns_maxOpen _ _).1, (SetMaxIdleConns_maxOpen _ _).2⟩
    · exact ⟨rfl, rfl⟩
  · have hm : max n 0 = n := by omega
    simp only [h, if_false, hm]
    split
    · exact ⟨(SetMaxIdleConns_maxOpen _ _).1, (SetMaxIdleConns_maxOpen _ _).2⟩
    · exact ⟨rfl, rfl⟩

/-- The limits of the pool after the three setters of `openDB`. -/
theorem setters_limits (dsn : Str) (o i t : Int) :
    ((((DB.fresh dsn).SetMaxOpenConns o).SetMaxIdleConns i).SetConnMaxIdleTime t).maxOpen
        = max o 0 ∧
      ((((DB.fresh dsn).SetMaxOpenConns o).SetMaxIdleConns i).SetConnMaxIdleTime t).maxIdleTime
        = max t 0 ∧
      ((((DB.fresh dsn).SetMaxOpenConns o).SetMaxIdleConns i).SetConnMaxIdleTime
          t).maxIdleConnsLocked
        = (if i ≤ 0 then 0 else if 0 < max o 0 ∧ max o 0 < i then max o 0 else i) := by
  have h1 := SetMaxOpenConns_maxOpen (DB.fresh dsn) o
  have h2 := SetMaxIdleConns_maxOpen ((DB.fresh dsn).SetMaxOpenConns o) i
  have h3 := SetMaxIdleConns_locked ((DB.fresh dsn).SetMaxOpenConns o) i
  rw [h1.1] at h3
  refine ⟨?_, ?_, ?_⟩
  · show (((DB.fresh dsn).SetMaxOpenConns o).SetMaxIdleConns i).maxOpen = _
    rw [h2.1, h1.1]
  · show (if t < 0 then 0 else t) = max t 0
    split <;> omega
  · exact h3

/-- The handle `openDB` returns is the pool `sql.Open` gave, after the three
setters. -/
theorem openDB_db (sys : Sys) (cfg : config) (db : DB) (h : (openDB sys cfg).db = some db) :
    db = (((DB.fresh cfg.db.dsn).SetMaxOpenConns cfg.db.maxOpenConns).SetMaxIdleConns
      cfg.db.maxIdleConns).SetConnMaxIdleTime cfg.db.maxIdleTime := by
  unfold openDB at h
  cases h1 : sys.sqlOpen "postgres".toList cfg.db.dsn with
  | some e1 => rw [h1] at h; simp at h
  | none =>
    cases h2 : sys.ping cfg.db.dsn (5 * Second) with
    | some e2 => rw [h1, h2] at h; simp at h
    | none => rw [h1, h2] at h; simpa using h.symm

/-- C5 (amended): for every config for which `openDB` succeeds, the pool's
maximum open connections is `maxOpenConns`, or 0 (no limit) if that is negative;
its maximum idle time is `maxIdleTime`, or 0 if that is negative; its maximum
idle connections is 0 if `maxIdleConns` is not positive, the maximum open
connections if that is positive and smaller, else `maxIdleConns`. The three
equal the configured values exactly when none of these is negative and
`maxIdleConns` does not exceed a non-zero `maxOpenConns`. -/
theorem pool_limits (sys : Sys) (cfg : config) (db : DB) (h : (openDB sys cfg).db = some db) :
    db.maxOpen = max cfg.db.maxOpenConns 0 ∧
      db.Stats.MaxOpenConnections = max cfg.db.maxOpenConns 0 ∧
      db.maxIdleTime = max cfg.db.maxIdleTime 0 ∧
      db.maxIdleConnsLocked =
        (if cfg.db.maxIdleConns ≤ 0 then 0
         else if 0 < max cfg.db.maxOpenConns 0 ∧ max cfg.db.maxOpenConns 0 < cfg.db.maxIdleConns
           then max cfg.db.maxOpenConns 0
         else cfg.db.maxIdleConns) ∧
      ((db.maxOpen = cfg.db.maxOpenConns ∧ db.maxIdleConnsLocked = cfg.db.maxIdleConns ∧
          db.maxIdleTime = cfg.db.maxIdleTime) ↔
        (0 ≤ cfg.db.maxOpenConns ∧ 0 ≤ cfg.db.maxIdleConns ∧ 0 ≤ cfg.db.maxIdleTime ∧
          (cfg.db.maxOpenConns = 0 ∨ cfg.db.maxIdleConns ≤ cfg.db.maxOpenConns))) := by
  have hdb := openDB_db sys cfg db h
  obtain ⟨h1, h2, h3⟩ := setters_limits cfg.db.dsn cfg.db.maxOpenConns cfg.db.maxIdleConns
    cfg.db.maxIdleTime
  rw [← hdb] at h1 h2 h3
  refine ⟨h1, h1, h2, h3, ?_⟩
  rw [h1, h2, h3]
  split_ifs <;> omega

/-- Witness of C5: with 25 open and 25 idle connections and 15 minutes asked
for, the pool has exactly these limits. -/
theorem pool_limits_witness :
    ∃ db, (openDB Sys.quiet config.usual).db = some db ∧ db.maxOpen = 25 ∧
      db.maxIdleConnsLocked = 25 ∧ db.maxIdleTime = 900000000000 := by
  refine ⟨_, rfl, ?_⟩
  have h := pool_limits Sys.quiet config.usual _ rfl
  exact ⟨h.1.trans (by decide), h.2.2.2.1.trans (by decide), h.2.2.1.trans (by decide)⟩

/-- C6 (the code at the failing input): in the run where `openDB` succeeds and
`serve` returns an error the process exits with status 1 and `db.Close()` never
runs, so the pool is left open; in the run where `serve` returns `nil` the
deferred `db.Close()` runs once. -/
theorem serve_error_skips_close :
    (openDB Sys.serveFails (defineFlags Sys.serveFails).2).err = none ∧
      (main Sys.serveFails).exit = 1 ∧ closes (main Sys.serveFails).trace = 0 ∧
      poolsLeftOpen (main Sys.serveFails).trace = 1 ∧
      (main Sys.quiet).exit = 0 ∧ closes (main Sys.quiet).trace = 1 ∧
      poolsLeftOpen (main Sys.quiet).trace = 0 := by
  decide

/-- C7 (the code at the failing input): when `sql.Open` succeeds and the ping
fails, `openDB` returns a nil handle and the error without ever calling
`db.Close()`: one pool is left open, and `main` exits without closing it. -/
theorem ping_failure_leaks_pool :
    (openDB Sys.pingFails config.usual).db = none ∧
      (openDB Sys.pingFails config.usual).err = some "context deadline exceeded".toList ∧
      Event.sqlOpen "postgres".toList config.usual.db.dsn true
        ∈ (openDB Sys.pingFails config.usual).events ∧
      Event.dbClose ∉ (openDB Sys.pingFails config.usual).events ∧
      poolsLeftOpen (openDB Sys.pingFails config.usual).events = 1 ∧
      poolsLeftOpen (main Sys.pingFails).trace = 1 := by
  decide

/-- No path through `openDB` calls `db.Close()`; whenever `sql.Open` succeeds,
one pool is open when `openDB` returns, whether or not the ping succeeded. -/
theorem openDB_never_closes (sys : Sys) (cfg : config) :
    Event.dbClose ∉ (openDB sys cfg).events ∧
      (sys.sqlOpen "postgres".toList cfg.db.dsn = none →
        poolsLeftOpen (openDB sys cfg).events = 1) := by
  unfold openDB
  cases h1 : sys.sqlOpen "postgres".toList cfg.db.dsn with
  | some e1 => simp
  | none =>
    cases h2 : sys.ping cfg.db.dsn (5 * Second) with
    | some e2 => simp [poolsLeftOpen, closes, Event.isOpen]
    | none => simp [poolsLeftOpen, closes, Event.isOpen]

/-- The events of `openDB` are none of the later steps, and none of them is
the return of `flag.Parse` or of `openDB` itself. -/
theorem openDB_events (sys : Sys) (cfg : config) :
    ∀ e ∈ (openDB sys cfg).events, e.isLaterStep = false ∧ e ≠ .flagParsed ∧
      e ≠ .openDBReturn true := by
  unfold openDB
  cases h1 : sys.sqlOpen "postgres".toList cfg.db.dsn with
  | some e1 => simp [Event.isLaterStep]
  | none =>
    cases h2 : sys.ping cfg.db.dsn (5 * Second) with
    | some e2 => simp [Event.isLaterStep]
    | none => simp [Event.isLaterStep]

theorem onlyAfter_of_none (p q : Event → Bool) (t : List Event)
    (h : ∀ e ∈ t, q e = false) : onlyAfter p q t = true := by
  induction t with
  | nil => rfl
  | cons e t ih =>
    have he := h e (List.mem_cons_self _ _)
    have := ih (fun x hx => h x (List.mem_cons_of_mem _ hx))
    simp [onlyAfter, he, this]

theorem onlyAfter_append (p q : Event → Bool) (t u : List Event)
    (h : ∀ e ∈ t, q e = false) (hu : onlyAfter p q u = true) :
    onlyAfter p q (t ++ u) = true := by
  induction t with
  | nil => simpa using hu
  | cons e t ih =>
    have he := h e (List.mem_cons_self _ _)
    have := ih (fun x hx => h x (List.mem_cons_of_mem _ hx))
    simp [onlyAfter, he, this]

/-- The run in which the `.env` file does not load. -/
theorem main_dotenv_fails (sys : Sys) (err : Str) (h0 : sys.godotenvLoad = some err) :
    main sys = ⟨[.logFatal "Error loading .env file".toList], 1, []⟩ := by
  simp [main, h0, osExit, Proc.emit]

/-- The run in which flag parsing fails. -/
theorem main_flags_fail (sys : Sys) (e : FlagError) (h0 : sys.godotenvLoad = none)
    (h1 : parseFlags sys = .error e) :
    main sys = if e = .ErrHelp then ⟨[.flagUsage], 0, []⟩
      else ⟨[.flagMessage e, .flagUsage], 2, []⟩ := by
  simp only [main, h0, h1, osExit, Proc.emit, List.nil_append]

/-- The run in which `openDB` fails. -/
theorem main_openDB_fails (sys : Sys) (cfg : config) (err : Str) (h0 : sys.godotenvLoad = none)
    (h1 : parseFlags sys = .ok cfg) (h2 : (openDB sys cfg).err = some err) :
    main sys = ⟨[.flagParsed, .openDBCall] ++ (openDB sys cfg).events ++
      [.openDBReturn false, .loggerError err], 1, []⟩ := by
  simp [main, h0, h1, h2, osExit, Proc.emit]

/-- The events of `main` between the return of `openDB` and the return of
`serve`. -/
theorem main_openDB_ok (sys : Sys) (cfg : config) (h0 : sys.godotenvLoad = none)
    (h1 : parseFlags sys = .ok cfg) (h2 : (openDB sys cfg).err = none) :
    main sys =
      ⟨[.flagParsed, .openDBCall] ++ (openDB sys cfg).events ++
        [.openDBReturn true, .loggerInfo "database connection pool established".toList,
         .expvarPublish "version".toList, .expvarPublish "goroutines".toList,
         .expvarPublish "database".toList, .expvarPublish "timestamp".toList,
         .NewModels,
         .mailerNew cfg.smtp.host cfg.smtp.port cfg.smtp.username cfg.smtp.password
           cfg.smtp.sender,
         .application, .serve] ++
        (match sys.serve with
          | some err => [.loggerError err]
          | none => [.dbClose]),
       (match sys.serve with
          | some _ => 1
          | none => 0),
       [("version".toList, .String version),
        ("goroutines".toList, .Func (fun rt => .int rt.NumGoroutine)),
        ("database".toList, .Func (fun rt => .stats rt.db.Stats)),
        ("timestamp".toList, .Func (fun rt => .int rt.now))]⟩ := by
  cases h3 : sys.serve <;>
    simp [main, h0, h1, h2, h3, osExit, returnFromMain, Proc.emit, Proc.defer, Proc.Publish]

/-- C8: in every run of `main`, every step of `openDB` comes after
`flag.Parse()` has returned, and the data-access models, the mailer, the
application struct and the call to `serve` come after `openDB` has returned a
nil error; when flag parsing fails no step of `openDB` and no later step is
performed, and when `openDB` fails no later step is performed. -/
theorem startup_order (sys : Sys) :
    onlyAfter (fun e => e == .flagParsed) Event.isOpenDB (main sys).trace = true ∧
      onlyAfter (fun e => e == .openDBReturn true) Event.isLaterStep (main sys).trace = true ∧
      (∀ e, parseFlags sys = .error e →
        ∀ ev ∈ (main sys).trace, ev.isOpenDB = false ∧ ev.isLaterStep = false) ∧
      (∀ cfg err, parseFlags sys = .ok cfg → (openDB sys cfg).err = some err →
        ∀ ev ∈ (main sys).trace, ev.isLaterStep = false) := by
  cases h0 : sys.godotenvLoad with
  | some e0 =>
    rw [main_dotenv_fails sys e0 h0]
    simp [onlyAfter, Event.isOpenDB, Event.isLaterStep]
  | none =>
    cases h1 : parseFlags sys with
    | error e =>
      rw [main_flags_fail sys e h0 h1]
      by_cases he : e = .ErrHelp
      · simp [he, onlyAfter, Event.isOpenDB, Event.isLaterStep]
      · simp [he, onlyAfter, Event.isOpenDB, Event.isLaterStep]
    | ok cfg =>
      have hev := openDB_events sys cfg
      cases h2 : (openDB sys cfg).err with
      | some err =>
        rw [main_openDB_fails sys cfg err h0 h1 h2]
        have hlater : ∀ ev ∈ [Event.flagParsed, Event.openDBCall] ++ (openDB sys cfg).events ++
            [Event.openDBReturn false, Event.loggerError err], ev.isLaterStep = false := by
          intro e he
          simp only [List.mem_cons, List.mem_append, List.mem_singleton, List.not_mem_nil,
            or_false] at he
          rcases he with ((h | h) | h) | h | h
          · subst h; rfl
          · subst h; rfl
          · exact (hev e h).1
          · subst h; rfl
          · subst h; rfl
        refine ⟨by simp [onlyAfter], onlyAfter_of_none _ _ _ hlater, by simp, ?_⟩
        intro _ _ _ _
        exact hlater
      | none =>
        rw [main_openDB_ok sys cfg h0 h1 h2]
        refine ⟨by simp [onlyAfter], ?_, by simp, ?_⟩
        rotate_left
        · intro cfg' err' hc he
          cases hc
          rw [h2] at he
          cases he
        simp only [List.append_assoc]
        apply onlyAfter_append
        · intro e he
          simp only [List.mem_cons, List.mem_singleton, List.not_mem_nil, or_false] at he
          rcases he with h | h
          · subst h; rfl
          · subst h; rfl
        · apply onlyAfter_append
          · intro e he
            exact (hev e he).1
          · simp [onlyAfter]

/-- C9: in every run that reaches the registration (the `.env` file loads, the
flags parse, `openDB` succeeds), `main` publishes exactly four variables, named
`version`, `goroutines`, `database` and `timestamp`, in this order; `version`
always reads the constant `1.0.0`; the other three are computed from the state
of the process at the time of each read, so that two reads of `database` in
states whose in-use connection counts differ return statistics that differ in
the in-use count. -/
theorem expvar_registration (sys : Sys) (cfg : config) (h0 : sys.godotenvLoad = none)
    (h1 : parseFlags sys = .ok cfg) (h2 : (openDB sys cfg).err = none) :
    (main sys).vars.map Prod.fst
        = ["version".toList, "goroutines".toList, "database".toList, "timestamp".toList] ∧
      ((main sys).trace.filter (fun e => match e with
          | .expvarPublish _ => true
          | _ => false))
        = [.expvarPublish "version".toList, .expvarPublish "goroutines".toList,
           .expvarPublish "database".toList, .expvarPublish "timestamp".toList] ∧
      (∀ rt, expvarRead (main sys).vars "version".toList rt = some (.str "1.0.0".toList)) ∧
      (∀ rt, expvarRead (main sys).vars "goroutines".toList rt = some (.int rt.NumGoroutine)) ∧
      (∀ rt, expvarRead (main sys).vars "database".toList rt = some (.stats rt.db.Stats)) ∧
      (∀ rt, expvarRead (main sys).vars "timestamp".toList rt = some (.int rt.now)) ∧
      (∀ rt1 rt2, rt1.db.Stats.InUse ≠ rt2.db.Stats.InUse →
        ∃ s1 s2, expvarRead (main sys).vars "database".toList rt1 = some (.stats s1) ∧
          expvarRead (main sys).vars "database".toList rt2 = some (.stats s2) ∧
          s1.InUse = rt1.db.numOpen - rt1.db.freeConn ∧
          s2.InUse = rt2.db.numOpen - rt2.db.freeConn ∧ s1.InUse ≠ s2.InUse) := by
  have hv : (main sys).vars = [("version".toList, .String version),
      ("goroutines".toList, .Func (fun rt => .int rt.NumGoroutine)),
      ("database".toList, .Func (fun rt => .stats rt.db.Stats)),
      ("timestamp".toList, .Func (fun rt => .int rt.now))] := by
    rw [main_openDB_ok sys cfg h0 h1 h2]
  have hd : ∀ rt, expvarRead (main sys).vars "database".toList rt = some (.stats rt.db.Stats) := by
    intro rt; rw [hv]; rfl
  refine ⟨by rw [hv]; rfl, ?_, ?_, ?_, hd, ?_, ?_⟩
  · rw [main_openDB_ok sys cfg h0 h1 h2]
    have hno : List.filter (fun e => match e with
          | .expvarPublish _ => true
          | _ => false) (openDB sys cfg).events = [] := by
      unfold openDB
      cases sys.sqlOpen "postgres".toList cfg.db.dsn with
      | some e1 => rfl
      | none => cases sys.ping cfg.db.dsn (5 * Second) <;> rfl
    cases sys.serve <;> simp [List.filter_append, hno, List.filter]
  · intro rt; rw [hv]; rfl
  · intro rt; rw [hv]; rfl
  · intro rt; rw [hv]; rfl
  · intro rt1 rt2 hne
    exact ⟨_, _, hd rt1, hd rt2, rfl, rfl, hne⟩

/-- Witness of C9: in the quiet run the four variables are published, and the
`database` variable read with no connection in use and then with one in use
gives in-use counts 0 and 1. -/
theorem expvar_registration_witness :
    (main Sys.quiet).vars.map Prod.fst
        = ["version".toList, "goroutines".toList, "database".toList, "timestamp".toList] ∧
      ∃ s1 s2, expvarRead (main Sys.quiet).vars "database".toList Runtime.idle
          = some (.stats s1) ∧
        expvarRead (main Sys.quiet).vars "database".toList Runtime.busy = some (.stats s2) ∧
        s1.InUse = 0 ∧ s2.InUse = 1 := by
  have h := expvar_registration Sys.quiet (defineFlags Sys.quiet).2 rfl (by decide) (by decide)
  obtain ⟨s1, s2, h1, h2, h3, h4, -⟩ := h.2.2.2.2.2.2 Runtime.idle Runtime.busy (by decide)
  exact ⟨h.1, s1, s2, h1, h2, h3.trans (by decide), h4.trans (by decide)⟩

/-- In every run in which `openDB` succeeds, `db.Close()` runs once if `serve`
returns `nil` and not at all if `serve` returns an error. -/
theorem main_closes (sys : Sys) (cfg : config) (h0 : sys.godotenvLoad = none)
    (h1 : parseFlags sys = .ok cfg) (h2 : (openDB sys cfg).err = none) :
    closes (main sys).trace = (match sys.serve with
      | some _ => 0
      | none => 1) ∧
    (main sys).exit = (match sys.serve with
      | some _ => 1
      | none => 0) := by
  have hc := (openDB_never_closes sys cfg).1
  rw [main_openDB_ok sys cfg h0 h1 h2]
  have h3 : List.count Event.dbClose (openDB sys cfg).events = 0 := List.count_eq_zero.mpr hc
  cases sys.serve <;> simp [closes, List.count_append, h3, List.count_cons]

end GoFlix
